import Mathlib

/-!
# testcontainers-go: log fan-out, module customizers, connection strings

A shallow embedding of the parts of the repository that the specification's
claims talk about, followed by the theorems that settle them.

Conventions of the embedding

* Go strings are byte strings. They are embedded as Lean `String`s; where the
  code looks at bytes (URL escaping) a character is taken through its UTF-8
  encoding.
* A Go method with side effects becomes a function that passes the state it
  changes explicitly. Calls through an interface value are recorded in a call
  log carried next to the state, so that "was called", "how often" and "in
  which order" are ordinary statements about a list.
* A pointer receiver `req *Request` mutated in place becomes `Request → Request`
  together with the returned error.
-/

set_option autoImplicit false
set_option linter.dupNamespace false

/-! ## Package `log` (src/log/consumer.go) -/

namespace log

/-- Log is the record handed to consumers: the stream it came from and its
bytes. The struct is declared outside the sources at hand; `StdoutConsumer`
reads `l.Content` as a byte slice. A Go slice passed by value still points at
the same backing array, so `Content` here is what that array holds at the
moment of the call. -/
structure Log where
  LogType : String
  Content : List Nat
deriving DecidableEq, Repr

/-- Consumer is the interface `Consumer` with its single method `Accept(Log)`.
An implementation carries an identity `name`, acts on a state `σ`, and may
write to the bytes of `l.Content`: the second component lists the writes
(index, byte) it makes to the backing array, in order. -/
structure Consumer (σ : Type) where
  name : Nat
  Accept : Log → σ → σ × List (Nat × Nat)

/-- The bytes of a slice after a sequence of writes `s[i] = b`. The length of a
slice cannot be changed through a copy of its header; a write outside the
slice, which panics in Go, is left out. -/
def applyWrites (bytes : List Nat) (writes : List (Nat × Nat)) : List Nat :=
  writes.foldl (fun acc w => acc.set w.1 w.2) bytes

/-- World holds the state the consumers act on, the bytes of the backing array
of `l.Content`, and the record of the interface calls made so far: which
consumer was handed which log. -/
structure World (σ : Type) where
  state : σ
  backing : List Nat
  calls : List (Nat × Log)

/-- The interface call `c.Accept(l)`: the log the consumer reads has the bytes
the backing array holds now; the call leaves the consumer's effect on the
state, its writes in the backing array, and one entry in the record. -/
def Consumer.call {σ : Type} (c : Consumer σ) (logType : String) (w : World σ) : World σ :=
  let l : Log := ⟨logType, w.backing⟩
  let r := c.Accept l w.state
  ⟨r.1, applyWrites w.backing r.2, w.calls ++ [(c.name, l)]⟩

/-- MultiConsumer is a Consumer that can accept multiple Consumers. -/
structure MultiConsumer (σ : Type) where
  Consumers : List (Consumer σ)

/-- The loop `for _, c := range mc.Consumers { c.Accept(l) }` from a given world. -/
def acceptLoop {σ : Type} (cs : List (Consumer σ)) (logType : String) (w : World σ) :
    World σ :=
  cs.foldl (fun acc c => c.call logType acc) w

/-- Accept sends the log to all the consumers:
`for _, c := range mc.Consumers { c.Accept(l) }`. The result holds the state,
the bytes of `l.Content` and the calls made. -/
def MultiConsumer.Accept {σ : Type} (mc : MultiConsumer σ) (l : Log) (s : σ) : World σ :=
  acceptLoop mc.Consumers l.LogType ⟨s, l.Content, []⟩

/-- A consumer that writes the given bytes over the start of `l.Content`. -/
def overwritingConsumer (name : Nat) (bytes : List Nat) : Consumer Unit :=
  ⟨name, fun _ s => (s, bytes.enum)⟩

/-- A consumer that only reads. -/
def readingConsumer (name : Nat) : Consumer Unit :=
  ⟨name, fun _ s => (s, [])⟩

/-- Duration is Go's `time.Duration`, a count of nanoseconds. -/
abbrev Duration := Int

/-- The constant `time.Second`. -/
def Second : Duration := 1000000000

/-- OptionsContainer is the interface with the single method
`WithLogProductionTimeout(timeout time.Duration)`; `σ` is the implementing type. -/
structure OptionsContainer (σ : Type) where
  WithLogProductionTimeout : Duration → σ → σ

/-- Target of a production option: the implementing value and the record of the
timeouts its setter has been called with. -/
structure Target (σ : Type) where
  value : σ
  received : List Duration

/-- The interface call `c.WithLogProductionTimeout(timeout)`. -/
def OptionsContainer.call {σ : Type} (impl : OptionsContainer σ) (timeout : Duration)
    (c : Target σ) : Target σ :=
  ⟨impl.WithLogProductionTimeout timeout c.value, c.received ++ [timeout]⟩

/-- ProductionOption is `func(OptionsContainer)`. -/
abbrev ProductionOption (σ : Type) := OptionsContainer σ → Target σ → Target σ

/-- WithProductionTimeout returns
`func(c OptionsContainer) { c.WithLogProductionTimeout(timeout) }`. -/
def WithProductionTimeout {σ : Type} (timeout : Duration) : ProductionOption σ :=
  fun impl c => impl.call timeout c

/-- The bounds named by the doc comment of `WithProductionTimeout`:
below 5s gives 5s, above 60s gives 60s, anything else is kept. -/
def clampTimeout (t : Duration) : Duration :=
  if t < 5 * Second then 5 * Second else if t > 60 * Second then 60 * Second else t

/-- An options container whose setter stores the timeout it is given. -/
def storingContainer : OptionsContainer (Option Duration) :=
  ⟨fun t _ => some t⟩

end log

/-! ## Package `wait`: the strategies a request can name -/

namespace wait

/-- Strategy describes a readiness strategy by the constructor call that built
it. Matcher closures passed to a constructor are kept as a label only; the URL
builder of `ForSQL` is kept as the function of host and port it is. -/
inductive Strategy where
  | ForListeningPort (port : String) (startupTimeout : Option log.Duration)
  | ForLog (text : String)
  | ForExec (cmd : List String) (responseMatcher : Option String)
  | ForHTTP (path : String) (port : Option String) (statusCodeMatcher : Option String)
  | ForSQL (port : String) (driver : String) (url : String → String → String)
  | ForAll (strategies : List Strategy)

end wait

/-! ## Package `testcontainers`: the request and what the modules need of it -/

namespace testcontainers

/-- Error is a Go `error` value: a message, or a message wrapped around a cause
(`fmt.Errorf("...: %w", err)`). -/
inductive Error where
  | msg (text : String)
  | wrap (text : String) (cause : Error)
deriving DecidableEq, Repr

/-- ContainerFile is one file to copy into the container. -/
structure ContainerFile where
  HostFilePath : String
  ContainerFilePath : String
  FileMode : Nat
deriving DecidableEq, Repr

/-- Executable is the interface of commands run inside a container. The one
implementation built by the modelled code is cassandra's `initScript`, a
struct with the single field `File`. -/
inductive Executable where
  | initScript (File : String)
deriving DecidableEq, Repr

/-- Hook is a lifecycle callback, described by what it was built from: the
pre-start closure of the CockroachDB module that calls `addTLS`, or the
execution of an Executable. -/
inductive Hook where
  | addTLS
  | exec (e : Executable)
deriving DecidableEq, Repr

/-- LifecycleHooks is one group of hooks; only the phases the modelled code fills
are kept. -/
structure LifecycleHooks where
  PreStarts : List Hook
  PostReadies : List Hook
deriving DecidableEq, Repr

/-- Request is the description of one container to launch. `Env` is a Go map:
`none` is the nil map, and a key is looked up at its first occurrence. -/
structure Request where
  Image : String
  ExposedPorts : List String
  Env : Option (List (String × String))
  Entrypoint : List String
  Cmd : List String
  Files : List ContainerFile
  LifecycleHooks : List LifecycleHooks
  WaitingFor : Option wait.Strategy
  Started : Bool

/-- The zero value of Request with the given fields of a composite literal left
to the caller. -/
def Request.zero : Request :=
  ⟨"", [], none, [], [], [], [], none, false⟩

/-- CustomizeRequestOption is `func(req *Request) error`: the request as the
function leaves it, and the error it returns. -/
abbrev CustomizeRequestOption := Request → Request × Option Error

/-- Modelled from the spec: `testcontainers.WithAfterReadyCommand` is not among
the sources. Following the lifecycle-hook design of the spec (ordered callbacks
per phase, in registration order) it registers the executables it is given, in
order, as one group of after-ready hooks appended to the request, and returns
no error. -/
def WithAfterReadyCommand (execs : List Executable) : CustomizeRequestOption :=
  fun req =>
    ({ req with LifecycleHooks := req.LifecycleHooks ++ [⟨[], execs.map Hook.exec⟩] }, none)

/-- The after-ready commands registered on a request, in registration order. -/
def Request.afterReadyCommands (req : Request) : List Executable :=
  (req.LifecycleHooks.map (fun h => h.PostReadies)).flatten.filterMap
    (fun h => match h with
      | Hook.exec e => some e
      | Hook.addTLS => none)

end testcontainers

/-! ## `path/filepath` (Go standard library, Unix build) -/

namespace filepath

/-- Base returns the last element of path. Trailing separators are removed
before extracting the last element; the empty path gives "."; a path of
separators only gives "/". -/
def Base (path : String) : String :=
  if path = "" then "."
  else
    let stripped := (path.toList.reverse.dropWhile (fun c => c == '/')).reverse
    let last := (stripped.reverse.takeWhile (fun c => c != '/')).reverse
    if last = [] then "/" else String.mk last

end filepath

/-! ## Package `cassandra` (src/modules/cassandra/cassandra.go) -/

namespace cassandra

/-- WithConfigFile: appends the config file to `req.Files` and returns nil. -/
def WithConfigFile (configFile : String) : testcontainers.CustomizeRequestOption :=
  fun req =>
    let cf : testcontainers.ContainerFile :=
      { HostFilePath := configFile
        ContainerFilePath := "/etc/cassandra/cassandra.yaml"
        FileMode := 0o755 }
    ({ req with Files := req.Files ++ [cf] }, none)

/-- The body of the loop of WithInitScripts: one script extends both slices. -/
def initScriptsStep
    (acc : List testcontainers.ContainerFile × List testcontainers.Executable)
    (script : String) : List testcontainers.ContainerFile × List testcontainers.Executable :=
  let cf : testcontainers.ContainerFile :=
    { HostFilePath := script
      ContainerFilePath := "/" ++ filepath.Base script
      FileMode := 0o755 }
  (acc.1 ++ [cf], acc.2 ++ [testcontainers.Executable.initScript cf.ContainerFilePath])

/-- WithInitScripts: builds `initScripts` and `execs` in one loop over the
scripts, appends the files to `req.Files`, then hands the request to
`testcontainers.WithAfterReadyCommand(execs...)`. -/
def WithInitScripts (scripts : List String) : testcontainers.CustomizeRequestOption :=
  fun req =>
    let built := scripts.foldl initScriptsStep ([], [])
    let req1 := { req with Files := req.Files ++ built.1 }
    testcontainers.WithAfterReadyCommand built.2 req1

end cassandra

/-! ## `net/url`, `net` and `nat.Port`: what `connString` uses of them -/

namespace url

/-- The escaping modes of `net/url`. -/
inductive encoding where
  | encodePath
  | encodePathSegment
  | encodeHost
  | encodeZone
  | encodeUserPassword
  | encodeQueryComponent
  | encodeFragment
deriving DecidableEq, Repr

/-- Membership of a byte in a set of characters given by their literals. -/
def oneOf (c : Nat) (cs : List Char) : Bool :=
  cs.any (fun d => d.toNat == c)

/-- shouldEscape reports whether the byte c must be escaped in the given mode
(`net/url`, func shouldEscape). Bytes 39 and 34 are the single and the double
quote. -/
def shouldEscape (c : Nat) (mode : encoding) : Bool :=
  if ('a'.toNat ≤ c ∧ c ≤ 'z'.toNat) ∨ ('A'.toNat ≤ c ∧ c ≤ 'Z'.toNat)
      ∨ ('0'.toNat ≤ c ∧ c ≤ '9'.toNat) then false
  else if (mode = encoding.encodeHost ∨ mode = encoding.encodeZone)
      ∧ (oneOf c ['!', '$', '&', '(', ')', '*', '+', ',', ';', '=', ':', '[', ']', '<', '>']
          ∨ c = 39 ∨ c = 34) then false
  else if oneOf c ['-', '_', '.', '~'] then false
  else if oneOf c ['$', '&', '+', ',', '/', ':', ';', '=', '?', '@'] then
    match mode with
    | encoding.encodePath => c == '?'.toNat
    | encoding.encodePathSegment =>
        c == '/'.toNat || c == ';'.toNat || c == ','.toNat || c == '?'.toNat
    | encoding.encodeUserPassword =>
        c == '@'.toNat || c == '/'.toNat || c == '?'.toNat || c == ':'.toNat
    | encoding.encodeQueryComponent => true
    | encoding.encodeFragment => false
    | _ => true
  else if mode = encoding.encodeFragment ∧ oneOf c ['!', '(', ')', '*'] then false
  else true

/-- The digit of `upperhex = "0123456789ABCDEF"` at index n. -/
def upperhex (n : Nat) : Char :=
  "0123456789ABCDEF".toList.getD n '0'

/-- The UTF-8 encoding of a code point: the bytes a Go string holds for it. -/
def utf8Bytes (n : Nat) : List Nat :=
  if n < 0x80 then [n]
  else if n < 0x800 then [0xC0 + n / 64, 0x80 + n % 64]
  else if n < 0x10000 then [0xE0 + n / 4096, 0x80 + (n / 64) % 64, 0x80 + n % 64]
  else [0xF0 + n / 262144, 0x80 + (n / 4096) % 64, 0x80 + (n / 64) % 64, 0x80 + n % 64]

/-- What `escape` writes for one byte: `+` for a space in a query component,
`%XX` for a byte that must be escaped, the byte itself otherwise. -/
def escapeByte (c : Nat) (mode : encoding) : List Char :=
  if c = ' '.toNat ∧ mode = encoding.encodeQueryComponent then ['+']
  else if shouldEscape c mode then ['%', upperhex (c / 16), upperhex (c % 16)]
  else [Char.ofNat c]

/-- Byte-wise escaping of s in the given mode (`net/url`, func escape). -/
def escape (s : String) (mode : encoding) : String :=
  String.mk (s.toList.flatMap (fun ch => (utf8Bytes ch.toNat).flatMap (fun b => escapeByte b mode)))

/-- QueryEscape escapes the string so it can be placed inside a URL query. -/
def QueryEscape (s : String) : String :=
  escape s encoding.encodeQueryComponent

/-- Userinfo holds a username and an optional password. -/
structure Userinfo where
  username : String
  password : String
  passwordSet : Bool
deriving DecidableEq, Repr

/-- User returns a Userinfo with the username and no password set. -/
def User (username : String) : Userinfo :=
  ⟨username, "", false⟩

/-- UserPassword returns a Userinfo with the username and the password. -/
def UserPassword (username password : String) : Userinfo :=
  ⟨username, password, true⟩

/-- String returns the encoded userinfo, `username[:password]`. -/
def Userinfo.String (u : Userinfo) : String :=
  let s := escape u.username encoding.encodeUserPassword
  if u.passwordSet then s ++ ":" ++ escape u.password encoding.encodeUserPassword else s

/-- Values maps a key to its values; the keys are listed in sorted order, the
order in which `Encode` visits them. -/
abbrev Values := List (String × List String)

/-- Encode writes `key=value` pairs, escaped, joined by an ampersand. -/
def Values.Encode (v : Values) : String :=
  (v.foldl
    (fun buf kv => kv.2.foldl
      (fun b val => (if b = "" then b else b ++ "&") ++ QueryEscape kv.1 ++ "=" ++ QueryEscape val)
      buf)
    "")

/-- URL with the fields `connString` sets. Every other field of `url.URL` keeps
its zero value there: Opaque, RawPath, Fragment and RawFragment are empty,
OmitHost and ForceQuery are false. -/
structure URL where
  Scheme : String
  User : Option Userinfo
  Host : String
  Path : String
  RawQuery : String
deriving DecidableEq, Repr

/-- EscapedPath for an empty RawPath: `*` is kept, anything else is escaped in
path mode. -/
def URL.EscapedPath (u : URL) : String :=
  if u.Path = "*" then "*" else escape u.Path encoding.encodePath

/-- String reassembles the URL (`net/url`, func (u *URL) String), with the
branches on Opaque, OmitHost, ForceQuery and Fragment taken for their zero
values. -/
def URL.String (u : URL) : String :=
  let buf := if u.Scheme ≠ "" then u.Scheme ++ ":" else ""
  let buf :=
    if u.Scheme ≠ "" ∨ u.Host ≠ "" ∨ u.User.isSome then
      let buf := if u.Host ≠ "" ∨ u.Path ≠ "" ∨ u.User.isSome then buf ++ "//" else buf
      let buf := match u.User with
        | some ui => buf ++ ui.String ++ "@"
        | none => buf
      if u.Host ≠ "" then buf ++ escape u.Host encoding.encodeHost else buf
    else buf
  let path := u.EscapedPath
  let buf := if path ≠ "" ∧ path.toList.head? ≠ some '/' ∧ u.Host ≠ "" then buf ++ "/" else buf
  let buf :=
    if buf = "" ∧ (path.toList.takeWhile (fun c => c != '/')).contains ':' then buf ++ "./"
    else buf
  let buf := buf ++ path
  if u.RawQuery ≠ "" then buf ++ "?" ++ u.RawQuery else buf

end url

namespace net

/-- JoinHostPort combines host and port into `host:port`; a host with a colon
in it is taken for a literal IPv6 address and put in square brackets. -/
def JoinHostPort (host port : String) : String :=
  if host.toList.contains ':' then "[" ++ host ++ "]:" ++ port else host ++ ":" ++ port

end net

namespace nat

/-- Port is a string of the form `number/proto` or just `number`. -/
abbrev Port := String

/-- The number part of a port: the text before the first slash. -/
def Port.Port (p : Port) : String :=
  String.mk (p.toList.takeWhile (fun c => c != '/'))

end nat

/-! ## Launching a module: customizers, then `testcontainers.Run` -/

namespace testcontainers

/-- DockerContainer is the handle `testcontainers.Run` returns. -/
structure DockerContainer where
  ID : String
deriving DecidableEq, Repr

/-- RequestCustomizer is the interface with the method
`Customize(req *Request) error`; `name` identifies the value in the call record. -/
structure RequestCustomizer where
  name : Nat
  Customize : CustomizeRequestOption

/-- Event is one observable call made while a module launches a container:
`opt.Customize(&req)`, the CockroachDB `apply(&o)`, or `testcontainers.Run(ctx, req)`
with the request it was given. -/
inductive Event where
  | customize (name : Nat)
  | apply (name : Nat)
  | run (req : Request)

/-- Runner stands for `testcontainers.Run(ctx, req)`, which is not among the
sources: any function from the request to the returned pair (handle, error). -/
abbrev Runner := Request → Option DockerContainer × Option Error

/-- The loop shared by the modules:
`for _, opt := range opts { if err := opt.Customize(&req); err != nil { return nil, err } }`.
It gives the request as the loop left it, the error that ended it if any, and
the extended call record. -/
def customizeAll : List RequestCustomizer → Request → List Event
    → (Request × Option Error) × List Event
  | [], req, tr => ((req, none), tr)
  | opt :: rest, req, tr =>
    match opt.Customize req with
    | (req1, some err) => ((req1, some err), tr ++ [Event.customize opt.name])
    | (req1, none) => customizeAll rest req1 (tr ++ [Event.customize opt.name])

end testcontainers

namespace qdrant

/-- Container represents the Qdrant container type used in the module; the
embedded `*testcontainers.DockerContainer` is a pointer and may be nil. -/
structure Container where
  DockerContainer : Option testcontainers.DockerContainer
deriving DecidableEq, Repr

/-- The request literal of `qdrant.Run`. -/
def baseRequest (img : String) : testcontainers.Request :=
  { testcontainers.Request.zero with
    Image := img
    ExposedPorts := ["6333/tcp", "6334/tcp"]
    WaitingFor := some (wait.Strategy.ForAll
      [wait.Strategy.ForListeningPort "6333/tcp" (some (5 * log.Second)),
       wait.Strategy.ForListeningPort "6334/tcp" (some (5 * log.Second))])
    Started := true }

/-- Run creates an instance of the Qdrant container type. -/
def Run (run : testcontainers.Runner) (img : String)
    (opts : List testcontainers.RequestCustomizer) (tr : List testcontainers.Event) :
    (Option Container × Option testcontainers.Error) × List testcontainers.Event :=
  match testcontainers.customizeAll opts (baseRequest img) tr with
  | ((_, some err), tr1) => ((none, some err), tr1)
  | ((req, none), tr1) =>
    let res := run req
    let c := res.1.map (fun ctr => Container.mk (some ctr))
    match res.2 with
    | some err =>
      ((c, some (testcontainers.Error.wrap "generic container" err)),
        tr1 ++ [testcontainers.Event.run req])
    | none => ((c, none), tr1 ++ [testcontainers.Event.run req])

end qdrant

namespace chroma

/-- Container represents the Chroma container type used in the module; the
embedded `*testcontainers.DockerContainer` is a pointer and may be nil. -/
structure Container where
  DockerContainer : Option testcontainers.DockerContainer
deriving DecidableEq, Repr

/-- The request literal of `chroma.Run`. -/
def baseRequest (img : String) : testcontainers.Request :=
  { testcontainers.Request.zero with
    Image := img
    ExposedPorts := ["8000/tcp"]
    WaitingFor := some (wait.Strategy.ForAll
      [wait.Strategy.ForListeningPort "8000/tcp" none,
       wait.Strategy.ForLog "Application startup complete",
       wait.Strategy.ForHTTP "/api/v1/heartbeat" none (some "status == 200")])
    Started := true }

/-- Run creates an instance of the Chroma container type. -/
def Run (run : testcontainers.Runner) (img : String)
    (opts : List testcontainers.RequestCustomizer) (tr : List testcontainers.Event) :
    (Option Container × Option testcontainers.Error) × List testcontainers.Event :=
  match testcontainers.customizeAll opts (baseRequest img) tr with
  | ((_, some err), tr1) => ((none, some err), tr1)
  | ((req, none), tr1) =>
    let res := run req
    let c := res.1.map (fun ctr => Container.mk (some ctr))
    match res.2 with
    | some err =>
      ((c, some (testcontainers.Error.wrap "generic container" err)),
        tr1 ++ [testcontainers.Event.run req])
    | none => ((c, none), tr1 ++ [testcontainers.Event.run req])

end chroma

namespace azurite

/-- Service names an Azurite service; the type is a string type declared outside
the sources at hand, with the three constants the code switches on. -/
inductive Service where
  | BlobService
  | QueueService
  | TableService
  | other (name : String)
deriving DecidableEq, Repr

/-- The struct `options`, declared outside the sources at hand: the field is the
one the code reads. -/
structure options where
  EnabledServices : List Service
deriving DecidableEq, Repr

/-- Container represents the Azurite container type used in the module. -/
structure Container where
  DockerContainer : Option testcontainers.DockerContainer
  Settings : options
deriving DecidableEq, Repr

/-- The constant `BlobPort`. -/
def BlobPort : String := "10000/tcp"

/-- The constant `QueuePort`. -/
def QueuePort : String := "10001/tcp"

/-- The constant `TablePort`. -/
def TablePort : String := "10002/tcp"

/-- The request literal of `azurite.Run`. -/
def baseRequest (img : String) : testcontainers.Request :=
  { testcontainers.Request.zero with
    Image := img
    ExposedPorts := [BlobPort, QueuePort, TablePort]
    Env := some []
    Entrypoint := ["azurite"]
    Cmd := []
    Started := true }

/-- The body of the loop over the enabled services: the command line and the
log strategies collected so far, extended for one service. -/
def serviceStep (acc : List String × List wait.Strategy) (srv : Service) :
    List String × List wait.Strategy :=
  match srv with
  | Service.BlobService =>
    (acc.1 ++ ["--blobHost", "0.0.0.0"],
      acc.2 ++ [wait.Strategy.ForLog "Blob service is successfully listening"])
  | Service.QueueService =>
    (acc.1 ++ ["--queueHost", "0.0.0.0"],
      acc.2 ++ [wait.Strategy.ForLog "Queue service is successfully listening"])
  | Service.TableService =>
    (acc.1 ++ ["--tableHost", "0.0.0.0"],
      acc.2 ++ [wait.Strategy.ForLog "Table service is successfully listening"])
  | Service.other _ => acc

/-- Step 2 of `azurite.Run`: the command line and the wait strategy for the
enabled services. -/
def applyServices (req : testcontainers.Request) (settings : options) : testcontainers.Request :=
  if settings.EnabledServices.length > 0 then
    let built := settings.EnabledServices.foldl serviceStep (req.Cmd, [])
    let req1 := { req with Cmd := built.1 }
    if built.2.length > 0 then { req1 with WaitingFor := some (wait.Strategy.ForAll built.2) }
    else req1
  else req

/-- Run creates an instance of the Azurite container type. `settings` is the
value of `defaultOptions()`, declared outside the sources at hand. -/
def Run (run : testcontainers.Runner) (settings : options) (img : String)
    (opts : List testcontainers.RequestCustomizer) (tr : List testcontainers.Event) :
    (Option Container × Option testcontainers.Error) × List testcontainers.Event :=
  match testcontainers.customizeAll opts (baseRequest img) tr with
  | ((_, some err), tr1) => ((none, some err), tr1)
  | ((req, none), tr1) =>
    let req1 := applyServices req settings
    let res := run req1
    let c := res.1.map (fun ctr => Container.mk (some ctr) settings)
    match res.2 with
    | some err =>
      ((c, some (testcontainers.Error.wrap "generic container" err)),
        tr1 ++ [testcontainers.Event.run req1])
    | none => ((c, none), tr1 ++ [testcontainers.Event.run req1])

end azurite

namespace cassandra

/-- Container represents the Cassandra container type used in the module; the
embedded `*testcontainers.DockerContainer` is a pointer and may be nil. -/
structure Container where
  DockerContainer : Option testcontainers.DockerContainer
deriving DecidableEq, Repr

/-- The constant `port`. -/
def port : nat.Port := "9042/tcp"

/-- The request literal of `cassandra.RunContainer`. -/
def baseRequest : testcontainers.Request :=
  { testcontainers.Request.zero with
    Image := "cassandra:4.1.3"
    ExposedPorts := [port]
    Env := some
      [("CASSANDRA_SNITCH", "GossipingPropertyFileSnitch"),
       ("JVM_OPTS",
        "-Dcassandra.skip_wait_for_gossip_to_settle=0 -Dcassandra.initial_token=0"),
       ("HEAP_NEWSIZE", "128M"),
       ("MAX_HEAP_SIZE", "1024M"),
       ("CASSANDRA_ENDPOINT_SNITCH", "GossipingPropertyFileSnitch"),
       ("CASSANDRA_DC", "datacenter1")]
    WaitingFor := some (wait.Strategy.ForAll
      [wait.Strategy.ForListeningPort port none,
       wait.Strategy.ForExec ["cqlsh", "-e", "SELECT bootstrapped FROM system.local"]
         (some "body contains COMPLETED")])
    Started := true }

/-- RunContainer creates an instance of the Cassandra container type. -/
def RunContainer (run : testcontainers.Runner)
    (opts : List testcontainers.RequestCustomizer) (tr : List testcontainers.Event) :
    (Option Container × Option testcontainers.Error) × List testcontainers.Event :=
  match testcontainers.customizeAll opts baseRequest tr with
  | ((_, some err), tr1) => ((none, some err), tr1)
  | ((req, none), tr1) =>
    match run req with
    | (_, some err) => ((none, some err), tr1 ++ [testcontainers.Event.run req])
    | (ctr, none) => ((some ⟨ctr⟩, none), tr1 ++ [testcontainers.Event.run req])

end cassandra

/-! ## Package `cockroachdb` (src/modules/cockroachdb/cockroachdb.go) -/

/-- The constant `certsDir`. -/
def cockroachdb.certsDir : String := "/tmp"

/-- The constant `defaultSQLPort`. -/
def cockroachdb.defaultSQLPort : String := "26257/tcp"

/-- The constant `defaultAdminPort`. -/
def cockroachdb.defaultAdminPort : String := "8080/tcp"

/-- The constant `defaultUser`. -/
def cockroachdb.defaultUser : String := "root"

/-- TLSConfig holds the certificate material of `opts.TLS`, as bytes. -/
structure cockroachdb.TLSConfig where
  CACert : List Nat
  NodeCert : List Nat
  NodeKey : List Nat
  ClientCert : List Nat
  ClientKey : List Nat
deriving DecidableEq, Repr

/-- The struct `options`, declared outside the sources at hand: the fields are
the ones the code reads. `TLS` is a pointer, nil when TLS is not configured. -/
structure cockroachdb.options where
  Database : String
  User : String
  Password : String
  StoreSize : String
  TLS : Option cockroachdb.TLSConfig
deriving DecidableEq, Repr

/-- OptionFn is the Go type `Option`, `func(*options)`, the dynamic type the loop
of Run asserts for (renamed: inside this package the Go name would hide the
option type of Lean). -/
abbrev cockroachdb.OptionFn := cockroachdb.options → cockroachdb.options

/-- Container represents the CockroachDB container type used in the module. -/
structure cockroachdb.Container where
  DockerContainer : Option testcontainers.DockerContainer
  opts : cockroachdb.options
deriving DecidableEq, Repr

/-- The function connString: the URL of a SQL connection to host and port. -/
def cockroachdb.connString (opts : cockroachdb.options) (host : String) (port : nat.Port) :
    String :=
  let user := if opts.Password ≠ "" then url.UserPassword opts.User opts.Password
    else url.User opts.User
  let sslMode := if opts.TLS.isSome then "verify-full" else "disable"
  let params : url.Values := [("sslmode", [sslMode])]
  let u : url.URL :=
    { Scheme := "postgres"
      User := some user
      Host := net.JoinHostPort host port.Port
      Path := opts.Database
      RawQuery := params.Encode }
  u.String

/-- ConnectionString returns the dial address to open a new connection: the
mapped SQL port and the host are asked of the container, each of which may
fail, and then handed to connString. -/
def cockroachdb.Container.ConnectionString (c : cockroachdb.Container)
    (MappedPort : String → Except testcontainers.Error nat.Port)
    (Host : Except testcontainers.Error String) : Except testcontainers.Error String :=
  match MappedPort cockroachdb.defaultSQLPort with
  | Except.error err => Except.error err
  | Except.ok port =>
    match Host with
    | Except.error err => Except.error err
    | Except.ok host => Except.ok (cockroachdb.connString c.opts host port)

/-- Assignment `m[k] = v` on a Go map kept as an association list. -/
def cockroachdb.mapSet (m : List (String × String)) (k v : String) : List (String × String) :=
  (k, v) :: m.filter (fun kv => kv.1 != k)

/-- The function addEnvs. -/
def cockroachdb.addEnvs (req : testcontainers.Request) (opts : cockroachdb.options) :
    testcontainers.Request × Option testcontainers.Error :=
  let env := req.Env.getD []
  let env := cockroachdb.mapSet env "COCKROACH_DATABASE" opts.Database
  let env := cockroachdb.mapSet env "COCKROACH_USER" opts.User
  let env := cockroachdb.mapSet env "COCKROACH_PASSWORD" opts.Password
  ({ req with Env := some env }, none)

/-- The function addCmd. -/
def cockroachdb.addCmd (req : testcontainers.Request) (opts : cockroachdb.options) :
    testcontainers.Request × Option testcontainers.Error :=
  let req := { req with Cmd := ["start-single-node", "--store=type=mem,size=" ++ opts.StoreSize] }
  if opts.TLS.isSome ∧ opts.User ≠ cockroachdb.defaultUser then
    (req, some (testcontainers.Error.msg
      ("unsupported user " ++ opts.User ++ " with TLS, use " ++ cockroachdb.defaultUser)))
  else if opts.TLS.isSome ∧ opts.Password ≠ "" then
    (req, some (testcontainers.Error.msg "cannot use password authentication with TLS"))
  else if opts.TLS.isSome then
    ({ req with Cmd := req.Cmd ++ ["--certs-dir=" ++ cockroachdb.certsDir] }, none)
  else if opts.Password ≠ "" then
    ({ req with Cmd := req.Cmd ++ ["--accept-sql-without-tls"] }, none)
  else
    ({ req with Cmd := req.Cmd ++ ["--insecure"] }, none)

/-- The function addWaitingFor. `keyPair` stands for `tls.X509KeyPair` inside
connTLS, which may reject the client certificate; `register` stands for
`pgx.ParseConfig` followed by `stdlib.RegisterConnConfig`, which turn the
connection string into the name of a registered configuration when TLS is
configured. -/
def cockroachdb.addWaitingFor (keyPair : cockroachdb.TLSConfig → Option testcontainers.Error)
    (register : String → String)
    (req : testcontainers.Request) (opts : cockroachdb.options) :
    testcontainers.Request × Option testcontainers.Error :=
  match opts.TLS.bind keyPair with
  | some err => (req, some err)
  | none =>
    let sqlWait := wait.Strategy.ForSQL cockroachdb.defaultSQLPort "pgx/v5"
      (fun host port =>
        let connStr := cockroachdb.connString opts host port
        if opts.TLS.isSome then register connStr else connStr)
    let defaultStrategy := wait.Strategy.ForAll
      [wait.Strategy.ForHTTP "/health" (some cockroachdb.defaultAdminPort) none, sqlWait]
    match req.WaitingFor with
    | none => ({ req with WaitingFor := some defaultStrategy }, none)
    | some w => ({ req with WaitingFor := some (wait.Strategy.ForAll [w, defaultStrategy]) }, none)

/-- The first loop of `cockroachdb.Run`: for each customizer, `apply(&o)` when it
is an Option, then `Customize(&req)`, returning at the first error. The second
component of a list entry is the outcome of the type assertion `opt.(Option)`. -/
def cockroachdb.applyOptions :
    List (testcontainers.RequestCustomizer × Option cockroachdb.OptionFn)
    → testcontainers.Request → cockroachdb.options → List testcontainers.Event
    → (testcontainers.Request × cockroachdb.options × Option testcontainers.Error)
        × List testcontainers.Event
  | [], req, o, tr => ((req, o, none), tr)
  | (opt, asOption) :: rest, req, o, tr =>
    let applied := match asOption with
      | some apply => (apply o, tr ++ [testcontainers.Event.apply opt.name])
      | none => (o, tr)
    match opt.Customize req with
    | (req1, some err) =>
      ((req1, applied.1, some err), applied.2 ++ [testcontainers.Event.customize opt.name])
    | (req1, none) =>
      cockroachdb.applyOptions rest req1 applied.1
        (applied.2 ++ [testcontainers.Event.customize opt.name])

/-- The second loop of `cockroachdb.Run`: the modifiers in order, returning at the
first error. -/
def cockroachdb.modify :
    List (testcontainers.Request → cockroachdb.options
      → testcontainers.Request × Option testcontainers.Error)
    → testcontainers.Request → cockroachdb.options
    → testcontainers.Request × Option testcontainers.Error
  | [], req, _ => (req, none)
  | fn :: rest, req, o =>
    match fn req o with
    | (req1, some err) => (req1, some err)
    | (req1, none) => cockroachdb.modify rest req1 o

/-- The request literal of `cockroachdb.Run`. -/
def cockroachdb.baseRequest (img : String) : testcontainers.Request :=
  { testcontainers.Request.zero with
    Image := img
    ExposedPorts := [cockroachdb.defaultSQLPort, cockroachdb.defaultAdminPort]
    LifecycleHooks := [⟨[testcontainers.Hook.addTLS], []⟩]
    Started := true }

/-- Run creates an instance of the CockroachDB container type. `defaults` is the
value of `defaultOptions()`, declared outside the sources at hand. -/
def cockroachdb.Run (run : testcontainers.Runner)
    (keyPair : cockroachdb.TLSConfig → Option testcontainers.Error)
    (register : String → String)
    (defaults : cockroachdb.options) (img : String)
    (opts : List (testcontainers.RequestCustomizer × Option cockroachdb.OptionFn))
    (tr : List testcontainers.Event) :
    (Option cockroachdb.Container × Option testcontainers.Error)
      × List testcontainers.Event :=
  match cockroachdb.applyOptions opts (cockroachdb.baseRequest img) defaults tr with
  | ((_, _, some err), tr1) => ((none, some err), tr1)
  | ((req, o, none), tr1) =>
    match cockroachdb.modify
        [cockroachdb.addEnvs, cockroachdb.addCmd, cockroachdb.addWaitingFor keyPair register]
        req o with
    | (_, some err) => ((none, some err), tr1)
    | (req1, none) =>
      let res := run req1
      let c := res.1.map (fun ctr => cockroachdb.Container.mk (some ctr) o)
      match res.2 with
      | some err =>
        ((c, some (testcontainers.Error.wrap "generic container" err)),
          tr1 ++ [testcontainers.Event.run req1])
      | none => ((c, none), tr1 ++ [testcontainers.Event.run req1])

/-! ## Vocabulary of the statements about customizers -/

namespace testcontainers

/-- The request after the customizers were applied one after the other, each to
the request its predecessor left, when none of them returned an error. -/
def applyInOrder : List RequestCustomizer → Request → Option Request
  | [], req => some req
  | opt :: rest, req =>
    match opt.Customize req with
    | (req1, none) => applyInOrder rest req1
    | (_, some _) => none

/-- The record entries of one customizer in the loop of `cockroachdb.Run`: the
`apply` call when the customizer is an Option, then the `Customize` call. -/
def cockroachEvents (dyn : RequestCustomizer → Option cockroachdb.OptionFn)
    (opt : RequestCustomizer) : List Event :=
  (match dyn opt with
    | some _ => [Event.apply opt.name]
    | none => []) ++ [Event.customize opt.name]

end testcontainers

/-! ## The parallel launcher -/

namespace testcontainers

/-- ParallelContainersRequestError is one entry of the aggregate: the index of
the failing request in the batch and the cause. -/
structure ParallelContainersRequestError where
  Index : Nat
  Error : Error
deriving DecidableEq, Repr

/-- ParallelContainersError is the aggregate error; the test reads its field
`Errors`. -/
structure ParallelContainersError where
  Errors : List ParallelContainersRequestError
deriving DecidableEq, Repr

/-- The launches of a batch: every request with its index and the outcome of
launching it. `launch` is the launch of one request, independent of the
others: any function of the index and the request. -/
def launchOutcomes (launch : Nat → Request → Except Error DockerContainer)
    (reqs : List Request) : List (Nat × Except Error DockerContainer) :=
  reqs.enum.map (fun ir => (ir.1, launch ir.1 ir.2))

/-- Modelled from the spec: `ParallelContainers` is not among the sources, only
its test is. Following section 4.3: every request is launched, independent of
the outcome of the others; every request that reaches the started-and-ready
state contributes its handle to the result; every request that fails
contributes exactly one index-correlated entry, with the cause, to the
aggregate error; when nothing failed the aggregate is absent (nil). Handles and
entries are listed in submission order. -/
def ParallelContainers (launch : Nat → Request → Except Error DockerContainer)
    (reqs : List Request) : List DockerContainer × Option ParallelContainersError :=
  let outcomes := launchOutcomes launch reqs
  let res := outcomes.filterMap (fun o => match o.2 with
    | Except.ok c => some c
    | Except.error _ => none)
  let errs := outcomes.filterMap (fun o => match o.2 with
    | Except.ok _ => none
    | Except.error e => some (ParallelContainersRequestError.mk o.1 e))
  (res, if errs.isEmpty then none else some ⟨errs⟩)

/-- The entries an error value carries: none for the nil error. -/
def errorEntries (err : Option ParallelContainersError) : List ParallelContainersRequestError :=
  match err with
  | none => []
  | some e => e.Errors

/-- Whether launching request r at index i fails. -/
def fails (launch : Nat → Request → Except Error DockerContainer) (i : Nat) (r : Request) :
    Bool :=
  match launch i r with
  | Except.ok _ => false
  | Except.error _ => true

/-- The indices of the requests of the batch that fail to launch, in order. -/
def failingIndices (launch : Nat → Request → Except Error DockerContainer)
    (reqs : List Request) : List Nat :=
  (reqs.enum.filter (fun ir => fails launch ir.1 ir.2)).map (fun ir => ir.1)

end testcontainers

/-! ## The all-of readiness strategy -/

namespace wait

/-- Sub is a sub-strategy as the all-of strategy sees it: an identity, and
`WaitUntilReady` acting on the state of the target, returning the error if the
target did not become ready. -/
structure Sub (σ : Type) where
  name : Nat
  WaitUntilReady : σ → σ × Option testcontainers.Error

/-- Modelled from the spec: `wait.ForAll` and the `WaitUntilReady` of the strategy
it builds are not among the sources. Following section 4.1, "All-of: evaluates
sub-strategies in order; first failure aborts immediately with that failure;
success requires every sub-strategy to succeed". The result is the state and
error, and the record of the evaluations made: which sub-strategy, with which
outcome. -/
def MultiStrategy.WaitUntilReady {σ : Type} : List (Sub σ) → σ
    → (σ × Option testcontainers.Error) × List (Nat × Option testcontainers.Error)
  | [], st => ((st, none), [])
  | s :: rest, st =>
    match s.WaitUntilReady st with
    | (st1, some err) => ((st1, some err), [(s.name, some err)])
    | (st1, none) =>
      let r := MultiStrategy.WaitUntilReady rest st1
      (r.1, (s.name, none) :: r.2)

/-- Every sub-strategy of the sequence succeeds, each waited for on the state
its predecessor left: the state after the last one, or none as soon as one of
them returns an error. -/
def succeedAll {σ : Type} : List (Sub σ) → σ → Option σ
  | [], st => some st
  | s :: rest, st =>
    match s.WaitUntilReady st with
    | (st1, none) => succeedAll rest st1
    | (_, some _) => none

/-- A sub-strategy whose outcome does not depend on the state of the target. -/
def fixedOutcome {σ : Type} (o : Nat × Option testcontainers.Error) : Sub σ :=
  ⟨o.1, fun st => (st, o.2)⟩

/-- A sub-strategy that always succeeds. -/
def alwaysSucceeds {σ : Type} (name : Nat) : Sub σ :=
  ⟨name, fun st => (st, none)⟩

/-- A sub-strategy that always fails with the given error. -/
def alwaysFails {σ : Type} (name : Nat) (err : testcontainers.Error) : Sub σ :=
  ⟨name, fun st => (st, some err)⟩

end wait

/-! ## Concrete inputs -/

namespace testcontainers

/-- A customizer that leaves the request alone and returns nil. -/
def nilCustomizer (name : Nat) : RequestCustomizer :=
  ⟨name, fun req => (req, none)⟩

/-- A customizer that returns the given error. -/
def failingCustomizer (name : Nat) (err : Error) : RequestCustomizer :=
  ⟨name, fun req => (req, some err)⟩

end testcontainers

/-- The default options of the CockroachDB module with the given database name:
user `root`, no password, no TLS. -/
def cockroachdb.optionsFor (database : String) : cockroachdb.options :=
  ⟨database, cockroachdb.defaultUser, "", "100%", none⟩

/-! # Theorems -/

/-! ## Theorems: package `log` -/

/-- Writes do not change the length of a slice. -/
theorem applyWrites_length (bytes : List Nat) (writes : List (Nat × Nat)) :
    (log.applyWrites bytes writes).length = bytes.length := by
  induction writes generalizing bytes with
  | nil => rfl
  | cons w rest ih =>
    simp only [log.applyWrites, List.foldl_cons] at ih ⊢
    rw [ih]
    simp

/-- The loop calls the consumers of the list once each, in list order, after the
calls already made; every log it hands out has the given type and a content
of the length of the backing array. -/
theorem acceptLoop_calls {σ : Type} (cs : List (log.Consumer σ)) (logType : String)
    (w : log.World σ) :
    ∃ logs : List log.Log,
      (log.acceptLoop cs logType w).calls = w.calls ++ (cs.map (fun c => c.name)).zip logs
      ∧ logs.length = cs.length
      ∧ (∀ x ∈ logs, x.LogType = logType ∧ x.Content.length = w.backing.length)
      ∧ (log.acceptLoop cs logType w).backing.length = w.backing.length
      ∧ logs.head? = cs.head?.map (fun _ => ⟨logType, w.backing⟩) := by
  induction cs generalizing w with
  | nil => exact ⟨[], by simp [log.acceptLoop], rfl, by simp, rfl, rfl⟩
  | cons c rest ih =>
    obtain ⟨logs, h1, h2, h3, h4, _⟩ := ih (c.call logType w)
    have hb : (c.call logType w).backing.length = w.backing.length := by
      simp [log.Consumer.call, applyWrites_length]
    refine ⟨⟨logType, w.backing⟩ :: logs, ?_, by simp [h2], ?_, ?_, rfl⟩
    · simp only [log.acceptLoop, List.foldl_cons] at h1 ⊢
      rw [h1]
      simp [log.Consumer.call]
    · intro x hx
      rcases List.mem_cons.mp hx with rfl | hx
      · exact ⟨rfl, rfl⟩
      · rw [← hb]; exact h3 x hx
    · simp only [log.acceptLoop, List.foldl_cons] at h4 ⊢
      rw [h4, hb]

/-- When no consumer of the list writes to the content, the loop hands the same
log to each and leaves the bytes as they were. -/
theorem acceptLoop_readers {σ : Type} (cs : List (log.Consumer σ)) (logType : String)
    (w : log.World σ) (hread : ∀ c ∈ cs, ∀ l s, (c.Accept l s).2 = []) :
    (log.acceptLoop cs logType w).calls
        = w.calls ++ cs.map (fun c => (c.name, ⟨logType, w.backing⟩))
    ∧ (log.acceptLoop cs logType w).backing = w.backing := by
  induction cs generalizing w with
  | nil => simp [log.acceptLoop]
  | cons c rest ih =>
    have hc := hread c (List.mem_cons_self _ _) ⟨logType, w.backing⟩ w.state
    have hb : (c.call logType w).backing = w.backing := by
      simp [log.Consumer.call, hc, log.applyWrites]
    obtain ⟨h1, h2⟩ := ih (c.call logType w) (fun d hd => hread d (List.mem_cons_of_mem _ hd))
    simp only [log.acceptLoop, List.foldl_cons] at h1 h2 ⊢
    rw [h1, h2, hb]
    simp [log.Consumer.call]

/-- C8, as stated, fails: a consumer may write to the bytes of `l.Content`, which
all the calls share. With a first consumer that overwrites the content `hi`
(104, 105) by `HI` (72, 73), the second consumer is handed 72, 73, not the log
that `Accept` was called with. -/
theorem multiConsumer_second_consumer_sees_writes :
    (log.MultiConsumer.Accept
        ⟨[log.overwritingConsumer 0 [72, 73], log.readingConsumer 1]⟩
        ⟨"STDOUT", [104, 105]⟩ ()).calls
      = [(0, ⟨"STDOUT", [104, 105]⟩), (1, ⟨"STDOUT", [72, 73]⟩)]
    ∧ (log.MultiConsumer.Accept
        ⟨[log.overwritingConsumer 0 [72, 73], log.readingConsumer 1]⟩
        ⟨"STDOUT", [104, 105]⟩ ()).calls
      ≠ [(0, ⟨"STDOUT", [104, 105]⟩), (1, ⟨"STDOUT", [104, 105]⟩)] := by
  decide

/-- C8, amended. For every list of consumers cs and every log l,
`MultiConsumer.Accept(l)` calls every consumer of cs exactly once and in list
order, and calls nothing for the empty list. Every consumer is handed a log
with the type of l and a content of the length of `l.Content`; the first is
handed l itself; the bytes a later consumer reads are those the consumers
before it left in the shared content. When no consumer of cs writes to the
content, every consumer is handed l unchanged and the content is left as it
was. -/
theorem multiConsumer_accept_delivers {σ : Type} (cs : List (log.Consumer σ)) (l : log.Log)
    (s : σ) :
    (log.MultiConsumer.Accept ⟨cs⟩ l s).calls.map Prod.fst = cs.map (fun c => c.name)
    ∧ (∀ x ∈ (log.MultiConsumer.Accept ⟨cs⟩ l s).calls,
        x.2.LogType = l.LogType ∧ x.2.Content.length = l.Content.length)
    ∧ ((log.MultiConsumer.Accept ⟨cs⟩ l s).calls.head? = cs.head?.map (fun c => (c.name, l)))
    ∧ (∀ pre c post, cs = pre ++ c :: post
        → (log.MultiConsumer.Accept ⟨cs⟩ l s).calls[pre.length]?
          = some (c.name, ⟨l.LogType, (log.MultiConsumer.Accept ⟨pre⟩ l s).backing⟩))
    ∧ ((∀ c ∈ cs, ∀ l1 s1, (c.Accept l1 s1).2 = [])
        → (log.MultiConsumer.Accept ⟨cs⟩ l s).calls = cs.map (fun c => (c.name, l))
          ∧ (log.MultiConsumer.Accept ⟨cs⟩ l s).backing = l.Content)
    ∧ log.MultiConsumer.Accept ⟨[]⟩ l s = ⟨s, l.Content, []⟩ := by
  obtain ⟨logs, h1, h2, h3, _, h5⟩ := acceptLoop_calls cs l.LogType ⟨s, l.Content, []⟩
  have hcalls : (log.MultiConsumer.Accept ⟨cs⟩ l s).calls = (cs.map (fun c => c.name)).zip logs := by
    simpa [log.MultiConsumer.Accept] using h1
  refine ⟨?_, ?_, ?_, ?_, ?_, rfl⟩
  · rw [hcalls]
    exact List.map_fst_zip _ _ (by simp [h2])
  · intro x hx
    rw [hcalls] at hx
    have hx2 : x.2 ∈ logs := (List.of_mem_zip (a := x.1) (b := x.2) hx).2
    exact h3 x.2 hx2
  · rw [hcalls]
    cases cs with
    | nil => rfl
    | cons c rest =>
      cases logs with
      | nil => simp at h2
      | cons x xs =>
        have hx : x = l := Option.some.inj h5
        subst hx
        rfl
  · intro pre c post hcs
    subst hcs
    obtain ⟨lp, p1, p2, _, _, _⟩ := acceptLoop_calls pre l.LogType ⟨s, l.Content, []⟩
    obtain ⟨lq, q1, _, _, _, _⟩ := acceptLoop_calls post l.LogType
      (c.call l.LogType (log.acceptLoop pre l.LogType ⟨s, l.Content, []⟩))
    have hlen : (log.acceptLoop pre l.LogType ⟨s, l.Content, []⟩).calls.length = pre.length := by
      rw [p1]; simp [p2]
    have hsplit : (log.MultiConsumer.Accept ⟨pre ++ c :: post⟩ l s).calls
        = (log.acceptLoop pre l.LogType ⟨s, l.Content, []⟩).calls
          ++ ((c.name, ⟨l.LogType, (log.acceptLoop pre l.LogType ⟨s, l.Content, []⟩).backing⟩)
              :: (post.map (fun c => c.name)).zip lq) := by
      simp only [log.MultiConsumer.Accept, log.acceptLoop, List.foldl_append, List.foldl_cons]
      simp only [log.acceptLoop] at q1
      rw [q1]
      simp [log.Consumer.call]
    rw [hsplit, List.getElem?_append_right (by omega), hlen]
    simp [log.MultiConsumer.Accept]
  · intro hread
    have h := acceptLoop_readers cs l.LogType ⟨s, l.Content, []⟩ hread
    simpa [log.MultiConsumer.Accept] using h

/-- C5: the option applies no bound. For every duration t and every options
container, applying the option returned by `WithProductionTimeout(t)` calls the
container's `WithLogProductionTimeout` exactly once and hands it t itself, so
the value is whatever that setter makes of t. At 1s the setter is handed 1s,
and a setter that stores its argument leaves 1s in the container, where the
doc comment of the function promises 5s. -/
theorem withProductionTimeout_forwards {σ : Type} (impl : log.OptionsContainer σ)
    (t : log.Duration) (c : log.Target σ) :
    (log.WithProductionTimeout t impl c).received = c.received ++ [t]
    ∧ (log.WithProductionTimeout t impl c).value = impl.WithLogProductionTimeout t c.value
    ∧ (log.WithProductionTimeout (1 * log.Second) impl c).received
        ≠ c.received ++ [log.clampTimeout (1 * log.Second)]
    ∧ log.clampTimeout (1 * log.Second) = 5 * log.Second
    ∧ (log.WithProductionTimeout (1 * log.Second) log.storingContainer ⟨none, []⟩).value
        = some (1 * log.Second)
    ∧ (log.WithProductionTimeout (1 * log.Second) log.storingContainer ⟨none, []⟩).value
        ≠ some (log.clampTimeout (1 * log.Second)) := by
  refine ⟨rfl, rfl, ?_, by decide, rfl, by decide⟩
  show c.received ++ [1 * log.Second] ≠ c.received ++ [log.clampTimeout (1 * log.Second)]
  intro h
  have h2 := List.append_cancel_left h
  revert h2
  decide

/-- C6: the code leaves the command line alone. For every path and request,
`cassandra.WithConfigFile(p)` returns nil, appends the single file entry
(p, /etc/cassandra/cassandra.yaml, 0o755) to `req.Files` and leaves `req.Cmd`
(and every other field) as it was; on a request with an empty command line the
command line is still empty afterwards, so no argument names the config file. -/
theorem withConfigFile_leaves_cmd (p : String) (r : testcontainers.Request) :
    (cassandra.WithConfigFile p r).2 = none
    ∧ (cassandra.WithConfigFile p r).1.Files
        = r.Files ++ [⟨p, "/etc/cassandra/cassandra.yaml", 0o755⟩]
    ∧ (cassandra.WithConfigFile p r).1.Cmd = r.Cmd
    ∧ (cassandra.WithConfigFile p r).1 = { r with Files := (cassandra.WithConfigFile p r).1.Files }
    ∧ (cassandra.WithConfigFile "/tmp/cassandra.yaml" testcontainers.Request.zero).1.Cmd = [] := by
  refine ⟨rfl, rfl, rfl, rfl, rfl⟩

/-- The loop of WithInitScripts, started from any pair of slices, appends the
mapped scripts to both. -/
theorem initScripts_foldl (scripts : List String)
    (acc : List testcontainers.ContainerFile × List testcontainers.Executable) :
    scripts.foldl cassandra.initScriptsStep acc
      = (acc.1 ++ scripts.map (fun s => ⟨s, "/" ++ filepath.Base s, 0o755⟩),
         acc.2 ++ scripts.map
           (fun s => testcontainers.Executable.initScript ("/" ++ filepath.Base s))) := by
  induction scripts generalizing acc with
  | nil => simp
  | cons s rest ih =>
    rw [List.foldl_cons, ih]
    simp [cassandra.initScriptsStep]

/-- The after-ready commands of a request that gained one hook group. -/
theorem afterReadyCommands_append (r : testcontainers.Request)
    (hooks : List testcontainers.LifecycleHooks) (execs : List testcontainers.Executable) :
    testcontainers.Request.afterReadyCommands
        { r with LifecycleHooks := hooks ++ [⟨[], execs.map testcontainers.Hook.exec⟩] }
      = testcontainers.Request.afterReadyCommands { r with LifecycleHooks := hooks } ++ execs := by
  simp only [testcontainers.Request.afterReadyCommands, List.map_append, List.flatten_append,
    List.filterMap_append, List.map_cons, List.map_nil, List.flatten_cons, List.flatten_nil,
    List.append_nil]
  congr 1
  induction execs with
  | nil => rfl
  | cons e rest ih => simp [List.filterMap_cons, ih]

/-- C9. For every request r and scripts s1..sn, `cassandra.WithInitScripts`
returns nil, keeps the entries of `r.Files` and appends exactly n entries in
script order, the i-th being (si, "/" + Base(si), 0o755); it leaves the command
line alone; and the after-ready commands it registers, after those already on
the request, are exactly the n init scripts in the same order, each pointing at
the container path of its file. -/
theorem withInitScripts_files_and_commands (scripts : List String) (r : testcontainers.Request) :
    (cassandra.WithInitScripts scripts r).2 = none
    ∧ (cassandra.WithInitScripts scripts r).1.Files
        = r.Files ++ scripts.map (fun s => ⟨s, "/" ++ filepath.Base s, 0o755⟩)
    ∧ (cassandra.WithInitScripts scripts r).1.Files.length = r.Files.length + scripts.length
    ∧ (cassandra.WithInitScripts scripts r).1.Cmd = r.Cmd
    ∧ testcontainers.Request.afterReadyCommands (cassandra.WithInitScripts scripts r).1
        = testcontainers.Request.afterReadyCommands r
          ++ scripts.map (fun s => testcontainers.Executable.initScript ("/" ++ filepath.Base s))
    ∧ testcontainers.Request.afterReadyCommands (cassandra.WithInitScripts scripts r).1
        = testcontainers.Request.afterReadyCommands r
          ++ ((cassandra.WithInitScripts scripts r).1.Files.drop r.Files.length).map
              (fun f => testcontainers.Executable.initScript f.ContainerFilePath) := by
  have hf : (cassandra.WithInitScripts scripts r).1.Files
      = r.Files ++ scripts.map (fun s => ⟨s, "/" ++ filepath.Base s, 0o755⟩) := by
    simp [cassandra.WithInitScripts, testcontainers.WithAfterReadyCommand, initScripts_foldl]
  have hc : testcontainers.Request.afterReadyCommands (cassandra.WithInitScripts scripts r).1
      = testcontainers.Request.afterReadyCommands r
        ++ scripts.map
            (fun s => testcontainers.Executable.initScript ("/" ++ filepath.Base s)) := by
    simp only [cassandra.WithInitScripts, testcontainers.WithAfterReadyCommand, initScripts_foldl,
      List.nil_append]
    exact afterReadyCommands_append _ r.LifecycleHooks _
  refine ⟨rfl, hf, ?_, rfl, hc, ?_⟩
  · rw [hf]; simp
  · rw [hc, hf]; simp [Function.comp_def]

/-! ## Theorems: the parallel launcher -/

/-- Handles and entries partition the outcomes of a batch. -/
theorem outcomes_partition (l : List (Nat × Except testcontainers.Error testcontainers.DockerContainer)) :
    (l.filterMap (fun o => match o.2 with
        | Except.ok c => some c
        | Except.error _ => none)).length
      + (l.filterMap (fun o => match o.2 with
        | Except.ok _ => none
        | Except.error e => some (testcontainers.ParallelContainersRequestError.mk o.1 e))).length
      = l.length := by
  induction l with
  | nil => rfl
  | cons o rest ih =>
    obtain ⟨i, out⟩ := o
    cases out with
    | ok c => simp only [List.filterMap_cons, List.length_cons]; omega
    | error e => simp only [List.filterMap_cons, List.length_cons]; omega

/-- The entries of the error returned by the launcher are the failure entries
of the outcomes. -/
theorem errorEntries_parallelContainers
    (launch : Nat → testcontainers.Request → Except testcontainers.Error testcontainers.DockerContainer)
    (reqs : List testcontainers.Request) :
    testcontainers.errorEntries (testcontainers.ParallelContainers launch reqs).2
      = (testcontainers.launchOutcomes launch reqs).filterMap (fun o => match o.2 with
        | Except.ok _ => none
        | Except.error e => some (testcontainers.ParallelContainersRequestError.mk o.1 e)) := by
  simp only [testcontainers.ParallelContainers]
  split
  · rename_i h
    simp only [testcontainers.errorEntries]
    exact (List.isEmpty_iff.mp h).symm
  · rfl

/-- The indices of the failure entries are the indices of the failing requests. -/
theorem failure_indices
    (launch : Nat → testcontainers.Request → Except testcontainers.Error testcontainers.DockerContainer)
    (l : List (Nat × testcontainers.Request)) :
    ((l.map (fun ir => (ir.1, launch ir.1 ir.2))).filterMap (fun o => match o.2 with
        | Except.ok _ => none
        | Except.error e => some (testcontainers.ParallelContainersRequestError.mk o.1 e))).map
        (fun x => x.Index)
      = (l.filter (fun ir => testcontainers.fails launch ir.1 ir.2)).map (fun ir => ir.1) := by
  induction l with
  | nil => rfl
  | cons ir rest ih =>
    obtain ⟨i, r⟩ := ir
    simp only [List.map_cons, List.filterMap_cons, List.filter_cons, testcontainers.fails]
    cases h : launch i r with
    | ok c => simpa using ih
    | error e => simpa using ih

/-- Every failure entry names a request of the batch that fails with the
entry's cause. -/
theorem failure_entry_cause
    (launch : Nat → testcontainers.Request → Except testcontainers.Error testcontainers.DockerContainer)
    (reqs : List testcontainers.Request) (x : testcontainers.ParallelContainersRequestError)
    (hx : x ∈ testcontainers.errorEntries (testcontainers.ParallelContainers launch reqs).2) :
    ∃ req, reqs[x.Index]? = some req ∧ launch x.Index req = Except.error x.Error := by
  rw [errorEntries_parallelContainers, List.mem_filterMap] at hx
  obtain ⟨o, ho, hox⟩ := hx
  simp only [testcontainers.launchOutcomes, List.mem_map] at ho
  obtain ⟨ir, hir, rfl⟩ := ho
  obtain ⟨i, r⟩ := ir
  have hget : reqs[i]? = some r := by
    have := List.mem_enum_iff_getElem?.mp hir
    simpa using this
  cases h : launch i r with
  | ok c => simp [h] at hox
  | error e =>
    simp only [h, Option.some.injEq] at hox
    subst hox
    exact ⟨r, hget, h⟩

/-- C1. For every batch of N requests, of which exactly k fail to launch, the
launcher returns N-k handles and an error that carries exactly k entries, one
per failing request: the indices of the entries are the indices of the failing
requests, in order, and each entry holds the cause its request failed with. In
particular handles and entries add up to N. -/
theorem parallelContainers_partitions_batch
    (launch : Nat → testcontainers.Request → Except testcontainers.Error testcontainers.DockerContainer)
    (reqs : List testcontainers.Request) :
    (testcontainers.errorEntries (testcontainers.ParallelContainers launch reqs).2).map
        (fun x => x.Index) = testcontainers.failingIndices launch reqs
    ∧ (testcontainers.errorEntries (testcontainers.ParallelContainers launch reqs).2).length
        = (testcontainers.failingIndices launch reqs).length
    ∧ (testcontainers.ParallelContainers launch reqs).1.length
        = reqs.length - (testcontainers.failingIndices launch reqs).length
    ∧ (testcontainers.ParallelContainers launch reqs).1.length
        + (testcontainers.errorEntries (testcontainers.ParallelContainers launch reqs).2).length
        = reqs.length
    ∧ (∀ x ∈ testcontainers.errorEntries (testcontainers.ParallelContainers launch reqs).2,
        ∃ req, reqs[x.Index]? = some req ∧ launch x.Index req = Except.error x.Error) := by
  have hidx : (testcontainers.errorEntries (testcontainers.ParallelContainers launch reqs).2).map
      (fun x => x.Index) = testcontainers.failingIndices launch reqs := by
    rw [errorEntries_parallelContainers]
    exact failure_indices launch reqs.enum
  have hlen : (testcontainers.errorEntries (testcontainers.ParallelContainers launch reqs).2).length
      = (testcontainers.failingIndices launch reqs).length := by
    rw [← hidx, List.length_map]
  have hsum : (testcontainers.ParallelContainers launch reqs).1.length
      + (testcontainers.errorEntries (testcontainers.ParallelContainers launch reqs).2).length
      = reqs.length := by
    rw [errorEntries_parallelContainers]
    have := outcomes_partition (testcontainers.launchOutcomes launch reqs)
    simpa [testcontainers.ParallelContainers, testcontainers.launchOutcomes] using this
  refine ⟨hidx, hlen, ?_, hsum, fun x hx => failure_entry_cause launch reqs x hx⟩
  omega

/-- C2. The nil error is returned exactly when no request of the batch fails,
and then there are N handles; whenever the error is not nil it has at least
one entry and some request of the batch failed to launch. In particular a batch
in which every request launches gives the nil error and N handles. -/
theorem parallelContainers_nil_error_iff
    (launch : Nat → testcontainers.Request → Except testcontainers.Error testcontainers.DockerContainer)
    (reqs : List testcontainers.Request) :
    ((testcontainers.ParallelContainers launch reqs).2 = none
        ↔ testcontainers.failingIndices launch reqs = [])
    ∧ ((testcontainers.ParallelContainers launch reqs).2 = none
        → (testcontainers.ParallelContainers launch reqs).1.length = reqs.length)
    ∧ (∀ e, (testcontainers.ParallelContainers launch reqs).2 = some e
        → e.Errors ≠ [] ∧ ∃ i req, reqs[i]? = some req ∧ testcontainers.fails launch i req = true)
    ∧ ((∀ i req, reqs[i]? = some req → testcontainers.fails launch i req = false)
        → (testcontainers.ParallelContainers launch reqs).2 = none
          ∧ (testcontainers.ParallelContainers launch reqs).1.length = reqs.length) := by
  have hidx : (testcontainers.errorEntries (testcontainers.ParallelContainers launch reqs).2).map
      (fun x => x.Index) = testcontainers.failingIndices launch reqs := by
    rw [errorEntries_parallelContainers]
    exact failure_indices launch reqs.enum
  have hsum : (testcontainers.ParallelContainers launch reqs).1.length
      + (testcontainers.errorEntries (testcontainers.ParallelContainers launch reqs).2).length
      = reqs.length := by
    rw [errorEntries_parallelContainers]
    have := outcomes_partition (testcontainers.launchOutcomes launch reqs)
    simpa [testcontainers.ParallelContainers, testcontainers.launchOutcomes] using this
  have hne : ∀ e, (testcontainers.ParallelContainers launch reqs).2 = some e → e.Errors ≠ [] := by
    intro e he
    simp only [testcontainers.ParallelContainers] at he
    split at he
    · exact absurd he (by simp)
    · rename_i h
      simp only [Option.some.injEq] at he
      subst he
      intro hnil
      exact h (List.isEmpty_iff.mpr hnil)
  have hiff : (testcontainers.ParallelContainers launch reqs).2 = none
      ↔ testcontainers.failingIndices launch reqs = [] := by
    constructor
    · intro h
      rw [← hidx, h]; rfl
    · intro h
      cases hr : (testcontainers.ParallelContainers launch reqs).2 with
      | none => rfl
      | some e =>
        exfalso
        apply hne e hr
        rw [hr] at hidx
        simp only [testcontainers.errorEntries] at hidx
        rw [h] at hidx
        exact List.map_eq_nil_iff.mp hidx
  have hall : (testcontainers.ParallelContainers launch reqs).2 = none
      → (testcontainers.ParallelContainers launch reqs).1.length = reqs.length := by
    intro h
    rw [h] at hsum
    simpa [testcontainers.errorEntries] using hsum
  refine ⟨hiff, hall, ?_, ?_⟩
  · intro e he
    refine ⟨hne e he, ?_⟩
    have hmem : ∃ x, x ∈ e.Errors := by
      cases hl : e.Errors with
      | nil => exact absurd hl (hne e he)
      | cons x _ => exact ⟨x, by simp⟩
    obtain ⟨x, hx⟩ := hmem
    have hx2 : x ∈ testcontainers.errorEntries (testcontainers.ParallelContainers launch reqs).2 := by
      rw [he]; exact hx
    obtain ⟨req, hreq, hl⟩ := failure_entry_cause launch reqs x hx2
    exact ⟨x.Index, req, hreq, by simp [testcontainers.fails, hl]⟩
  · intro h
    have hnil : testcontainers.failingIndices launch reqs = [] := by
      simp only [testcontainers.failingIndices, List.map_eq_nil_iff, List.filter_eq_nil_iff]
      intro ir hir
      obtain ⟨i, r⟩ := ir
      have hget : reqs[i]? = some r := by
        have := List.mem_enum_iff_getElem?.mp hir
        simpa using this
      simp [h i r hget]
    exact ⟨hiff.mpr hnil, hall (hiff.mpr hnil)⟩

/-! ## Theorems: the all-of strategy -/

/-- The all-of strategy on a sequence of which every sub-strategy succeeds. -/
theorem waitUntilReady_all_succeed {σ : Type} (subs : List (wait.Sub σ)) (st stn : σ)
    (h : wait.succeedAll subs st = some stn) :
    wait.MultiStrategy.WaitUntilReady subs st
      = ((stn, none), subs.map (fun s => (s.name, none))) := by
  induction subs generalizing st with
  | nil =>
    simp only [wait.succeedAll, Option.some.injEq] at h
    subst h
    rfl
  | cons s rest ih =>
    rcases hs : s.WaitUntilReady st with ⟨st1, _ | err⟩
    · simp only [wait.succeedAll, hs] at h
      simp only [wait.MultiStrategy.WaitUntilReady, hs, ih st1 h, List.map_cons]
    · simp [wait.succeedAll, hs] at h

/-- The all-of strategy on a sequence in which `s` is the first sub-strategy to
fail. -/
theorem waitUntilReady_first_failure {σ : Type} (pre post : List (wait.Sub σ)) (s : wait.Sub σ)
    (st sti : σ) (e : testcontainers.Error)
    (h : wait.succeedAll pre st = some sti) (hs : (s.WaitUntilReady sti).2 = some e) :
    wait.MultiStrategy.WaitUntilReady (pre ++ s :: post) st
      = (((s.WaitUntilReady sti).1, some e),
          pre.map (fun p => (p.name, none)) ++ [(s.name, some e)]) := by
  induction pre generalizing st with
  | nil =>
    simp only [wait.succeedAll, Option.some.injEq] at h
    subst h
    rcases hw : s.WaitUntilReady st with ⟨st1, oerr⟩
    rw [hw] at hs
    simp only at hs
    subst hs
    simp [wait.MultiStrategy.WaitUntilReady, hw]
  | cons p rest ih =>
    rcases hp : p.WaitUntilReady st with ⟨st1, _ | err⟩
    · simp only [wait.succeedAll, hp] at h
      simp only [List.cons_append, wait.MultiStrategy.WaitUntilReady, hp, List.append_eq,
        List.map_cons]
      rw [ih st1 h]
    · simp [wait.succeedAll, hp] at h

/-- The all-of strategy succeeds exactly when every sub-strategy succeeds. -/
theorem waitUntilReady_nil_iff {σ : Type} (subs : List (wait.Sub σ)) (st : σ) :
    (wait.MultiStrategy.WaitUntilReady subs st).1.2 = none
      ↔ (wait.succeedAll subs st).isSome = true := by
  induction subs generalizing st with
  | nil => simp [wait.MultiStrategy.WaitUntilReady, wait.succeedAll]
  | cons s rest ih =>
    rcases hs : s.WaitUntilReady st with ⟨st1, _ | err⟩
    · simp only [wait.MultiStrategy.WaitUntilReady, wait.succeedAll, hs]
      exact ih st1
    · simp [wait.MultiStrategy.WaitUntilReady, wait.succeedAll, hs]

/-- For sub-strategies whose outcome does not depend on the state, all of them
succeed exactly when every outcome is a success. -/
theorem succeedAll_fixed {σ : Type} (outs : List (Nat × Option testcontainers.Error)) (st : σ) :
    (wait.succeedAll (outs.map wait.fixedOutcome) st).isSome = true ↔ ∀ o ∈ outs, o.2 = none := by
  induction outs with
  | nil => simp [wait.succeedAll]
  | cons o rest ih =>
    obtain ⟨n, oe⟩ := o
    cases oe with
    | none =>
      simp only [List.map_cons, wait.succeedAll, wait.fixedOutcome, List.mem_cons,
        forall_eq_or_imp, true_and]
      exact ih
    | some e => simp [wait.succeedAll, wait.fixedOutcome]

/-- For sub-strategies that leave the state of the target as it is, the error
of the all-of strategy is the first error in the sequence of their outcomes,
and the evaluations made are the sub-strategies up to that one. -/
theorem waitUntilReady_first_error {σ : Type} (subs : List (wait.Sub σ)) (st : σ)
    (hpure : ∀ s ∈ subs, ∀ x, (s.WaitUntilReady x).1 = x) :
    (wait.MultiStrategy.WaitUntilReady subs st).1.2
        = (subs.filterMap (fun s => (s.WaitUntilReady st).2)).head?
    ∧ (wait.MultiStrategy.WaitUntilReady subs st).2.map Prod.fst
        = ((subs.takeWhile (fun s => (s.WaitUntilReady st).2.isNone)).map (fun s => s.name))
          ++ ((subs.dropWhile (fun s => (s.WaitUntilReady st).2.isNone)).take 1).map
              (fun s => s.name) := by
  induction subs with
  | nil => exact ⟨rfl, rfl⟩
  | cons s rest ih =>
    have hs1 := hpure s (List.mem_cons_self _ _) st
    have ih2 := ih (fun d hd => hpure d (List.mem_cons_of_mem _ hd))
    rcases hs : s.WaitUntilReady st with ⟨st1, _ | err⟩
    · rw [hs] at hs1
      simp only at hs1
      subst hs1
      simp only [wait.MultiStrategy.WaitUntilReady, hs, List.filterMap_cons, List.map_cons,
        List.takeWhile_cons, List.dropWhile_cons, Option.isNone_none, if_true, List.cons_append]
      exact ⟨ih2.1, by rw [ih2.2]⟩
    · simp [wait.MultiStrategy.WaitUntilReady, hs, List.filterMap_cons, List.takeWhile_cons,
        List.dropWhile_cons]

/-- C4. For every ordered sequence of sub-strategies, the all-of strategy
succeeds if and only if every sub-strategy succeeds, each waited for on the
state its predecessor left; it then has evaluated all of them, in order. When
the sub-strategies before `s` succeed and `s` returns the error e, all-of
returns exactly e and the state `s` left, after evaluating the sub-strategies
up to `s` in order and none after it. For sub-strategies that leave the state
as it is, all-of succeeds if and only if each of them succeeds on that state,
its error is the first error among their outcomes in sequence order, and the
evaluations made are the succeeding sub-strategies before the first failing one
and that one. For sub-strategies with outcomes that do not depend on the
state, all-of succeeds if and only if every outcome is a success. For example [always-succeeds, always-fails, X] fails with the error of
the second, after two evaluations, whatever X is. -/
theorem forAll_stops_at_first_failure {σ : Type} (subs : List (wait.Sub σ)) (st : σ) :
    ((wait.MultiStrategy.WaitUntilReady subs st).1.2 = none
        ↔ (wait.succeedAll subs st).isSome = true)
    ∧ (∀ stn, wait.succeedAll subs st = some stn
        → wait.MultiStrategy.WaitUntilReady subs st
          = ((stn, none), subs.map (fun s => (s.name, none))))
    ∧ (∀ pre s post sti e, subs = pre ++ s :: post
        → wait.succeedAll pre st = some sti
        → (s.WaitUntilReady sti).2 = some e
        → wait.MultiStrategy.WaitUntilReady subs st
          = (((s.WaitUntilReady sti).1, some e),
              pre.map (fun p => (p.name, none)) ++ [(s.name, some e)]))
    ∧ ((∀ s ∈ subs, ∀ x, (s.WaitUntilReady x).1 = x)
        → ((wait.MultiStrategy.WaitUntilReady subs st).1.2 = none
            ↔ ∀ s ∈ subs, (s.WaitUntilReady st).2 = none)
          ∧ (wait.MultiStrategy.WaitUntilReady subs st).1.2
              = (subs.filterMap (fun s => (s.WaitUntilReady st).2)).head?
          ∧ (wait.MultiStrategy.WaitUntilReady subs st).2.map Prod.fst
              = ((subs.takeWhile (fun s => (s.WaitUntilReady st).2.isNone)).map
                  (fun s => s.name))
                ++ ((subs.dropWhile (fun s => (s.WaitUntilReady st).2.isNone)).take 1).map
                    (fun s => s.name))
    ∧ (∀ outs : List (Nat × Option testcontainers.Error),
        (wait.MultiStrategy.WaitUntilReady (outs.map wait.fixedOutcome) st).1.2 = none
          ↔ ∀ o ∈ outs, o.2 = none)
    ∧ (∀ (e : testcontainers.Error),
        (wait.MultiStrategy.WaitUntilReady [wait.alwaysFails 0 e] st).1.2 = some e)
    ∧ (∀ (X : wait.Sub σ) (e : testcontainers.Error),
        wait.MultiStrategy.WaitUntilReady [wait.alwaysSucceeds 0, wait.alwaysFails 1 e, X] st
          = ((st, some e), [(0, none), (1, some e)])) := by
  refine ⟨waitUntilReady_nil_iff subs st, fun stn h => waitUntilReady_all_succeed subs st stn h,
    ?_, ?_, ?_, fun e => rfl, fun X e => rfl⟩
  · intro pre s post sti e hsubs hpre hs
    subst hsubs
    exact waitUntilReady_first_failure pre post s st sti e hpre hs
  · intro hpure
    have h := waitUntilReady_first_error subs st hpure
    refine ⟨?_, h.1, h.2⟩
    rw [h.1, List.head?_eq_none_iff, List.filterMap_eq_nil_iff]
  · intro outs
    rw [waitUntilReady_nil_iff]
    exact succeedAll_fixed outs st

/-! ## Theorems: customizers of a module launch -/

/-- The shared loop, when every customizer returns nil: the request is the one
obtained by applying them in order, and each was called once, in order. -/
theorem customizeAll_all_nil (opts : List testcontainers.RequestCustomizer)
    (req0 req : testcontainers.Request) (tr : List testcontainers.Event)
    (h : testcontainers.applyInOrder opts req0 = some req) :
    testcontainers.customizeAll opts req0 tr
      = ((req, none), tr ++ opts.map (fun o => testcontainers.Event.customize o.name)) := by
  induction opts generalizing req0 tr with
  | nil =>
    simp only [testcontainers.applyInOrder, Option.some.injEq] at h
    simp [testcontainers.customizeAll, h]
  | cons o rest ih =>
    rcases hc : o.Customize req0 with ⟨req1, _ | err⟩
    · simp only [testcontainers.applyInOrder, hc] at h
      simp only [testcontainers.customizeAll, hc, ih req1 _ h]
      simp
    · simp [testcontainers.applyInOrder, hc] at h

/-- The shared loop, when `c` is the first customizer to return an error: the loop
ends there, after calling the customizers up to `c` once each, in order. -/
theorem customizeAll_first_error (pre post : List testcontainers.RequestCustomizer)
    (c : testcontainers.RequestCustomizer) (req0 req : testcontainers.Request)
    (err : testcontainers.Error) (tr : List testcontainers.Event)
    (h : testcontainers.applyInOrder pre req0 = some req)
    (hc : (c.Customize req).2 = some err) :
    testcontainers.customizeAll (pre ++ c :: post) req0 tr
      = (((c.Customize req).1, some err),
          tr ++ (pre ++ [c]).map (fun o => testcontainers.Event.customize o.name)) := by
  induction pre generalizing req0 tr with
  | nil =>
    simp only [testcontainers.applyInOrder, Option.some.injEq] at h
    subst h
    rcases hcc : c.Customize req0 with ⟨req1, oerr⟩
    rw [hcc] at hc
    simp only at hc
    subst hc
    simp [testcontainers.customizeAll, hcc]
  | cons o rest ih =>
    rcases ho : o.Customize req0 with ⟨req1, _ | e1⟩
    · simp only [testcontainers.applyInOrder, ho] at h
      simp only [List.cons_append, testcontainers.customizeAll, ho, List.append_eq]
      rw [ih req1 _ h]
      simp
    · simp [testcontainers.applyInOrder, ho] at h

/-- The loop of `cockroachdb.Run`, when `c` is the first customizer to return an
error: the loop ends there with that error, after the calls of the
customizers up to `c`, in order. -/
theorem applyOptions_first_error (dyn : testcontainers.RequestCustomizer → Option cockroachdb.OptionFn)
    (pre post : List testcontainers.RequestCustomizer)
    (c : testcontainers.RequestCustomizer) (req0 req : testcontainers.Request)
    (o : cockroachdb.options) (err : testcontainers.Error) (tr : List testcontainers.Event)
    (h : testcontainers.applyInOrder pre req0 = some req)
    (hc : (c.Customize req).2 = some err) :
    ∃ r1 o1, cockroachdb.applyOptions ((pre ++ c :: post).map (fun x => (x, dyn x))) req0 o tr
      = ((r1, o1, some err), tr ++ (pre ++ [c]).flatMap (testcontainers.cockroachEvents dyn)) := by
  induction pre generalizing req0 o tr with
  | nil =>
    simp only [testcontainers.applyInOrder, Option.some.injEq] at h
    subst h
    rcases hcc : c.Customize req0 with ⟨req1, oerr⟩
    rw [hcc] at hc
    simp only at hc
    subst hc
    cases hd : dyn c with
    | none =>
      exact ⟨req1, o, by simp [cockroachdb.applyOptions, hcc, hd, testcontainers.cockroachEvents]⟩
    | some f =>
      exact ⟨req1, f o, by
        simp [cockroachdb.applyOptions, hcc, hd, testcontainers.cockroachEvents]⟩
  | cons x rest ih =>
    rcases hx : x.Customize req0 with ⟨req1, _ | e1⟩
    · simp only [testcontainers.applyInOrder, hx] at h
      cases hd : dyn x with
      | none =>
        obtain ⟨r1, o1, hr⟩ := ih req1 o (tr ++ [testcontainers.Event.customize x.name]) h
        refine ⟨r1, o1, ?_⟩
        simp only [List.cons_append, List.map_cons, cockroachdb.applyOptions, hx, hd,
          List.append_eq]
        rw [hr]
        simp [testcontainers.cockroachEvents, hd]
      | some f =>
        obtain ⟨r1, o1, hr⟩ := ih req1 (f o)
          (tr ++ [testcontainers.Event.apply x.name] ++ [testcontainers.Event.customize x.name]) h
        refine ⟨r1, o1, ?_⟩
        simp only [List.cons_append, List.map_cons, cockroachdb.applyOptions, hx, hd,
          List.append_eq]
        rw [hr]
        simp [testcontainers.cockroachEvents, hd]
    · simp [testcontainers.applyInOrder, hx] at h

/-- C3. In `qdrant.Run`, `chroma.Run`, `azurite.Run`, `cassandra.RunContainer`
and `cockroachdb.Run` the customizers are applied to the request in the order
given. For each of these modules on its own: if, starting from the request
literal of the module, the customizers `pre` all return nil and the next one,
`c`, returns the error `err`, then the call returns the nil handle together
with exactly `err`; the calls it made are the `Customize` calls of `pre` and
of `c`, once each and in order (for CockroachDB each preceded by `apply` when
the customizer is an Option): no customizer after `c` is called and
`testcontainers.Run` is not called. When the customizers `pre` are all there
is, `testcontainers.Run` is called once, after them, with the request they
produced in that order (for Azurite after the services were added to it). -/
theorem customizer_error_aborts_launch (run : testcontainers.Runner)
    (pre post : List testcontainers.RequestCustomizer) (c : testcontainers.RequestCustomizer)
    (err : testcontainers.Error) (tr : List testcontainers.Event) :
    (∀ img rq, testcontainers.applyInOrder pre (qdrant.baseRequest img) = some rq
        → (c.Customize rq).2 = some err
        → qdrant.Run run img (pre ++ c :: post) tr
          = ((none, some err),
              tr ++ (pre ++ [c]).map (fun o => testcontainers.Event.customize o.name)))
    ∧ (∀ img rq, testcontainers.applyInOrder pre (chroma.baseRequest img) = some rq
        → (c.Customize rq).2 = some err
        → chroma.Run run img (pre ++ c :: post) tr
          = ((none, some err),
              tr ++ (pre ++ [c]).map (fun o => testcontainers.Event.customize o.name)))
    ∧ (∀ settings img rq, testcontainers.applyInOrder pre (azurite.baseRequest img) = some rq
        → (c.Customize rq).2 = some err
        → azurite.Run run settings img (pre ++ c :: post) tr
          = ((none, some err),
              tr ++ (pre ++ [c]).map (fun o => testcontainers.Event.customize o.name)))
    ∧ (∀ rq, testcontainers.applyInOrder pre cassandra.baseRequest = some rq
        → (c.Customize rq).2 = some err
        → cassandra.RunContainer run (pre ++ c :: post) tr
          = ((none, some err),
              tr ++ (pre ++ [c]).map (fun o => testcontainers.Event.customize o.name)))
    ∧ (∀ keyPair register defaults img dyn rq,
        testcontainers.applyInOrder pre (cockroachdb.baseRequest img) = some rq
        → (c.Customize rq).2 = some err
        → cockroachdb.Run run keyPair register defaults img
            ((pre ++ c :: post).map (fun x => (x, dyn x))) tr
          = ((none, some err),
              tr ++ (pre ++ [c]).flatMap (testcontainers.cockroachEvents dyn)))
    ∧ (∀ img rq, testcontainers.applyInOrder pre (qdrant.baseRequest img) = some rq
        → (qdrant.Run run img pre tr).2
          = tr ++ pre.map (fun o => testcontainers.Event.customize o.name)
              ++ [testcontainers.Event.run rq])
    ∧ (∀ img rq, testcontainers.applyInOrder pre (chroma.baseRequest img) = some rq
        → (chroma.Run run img pre tr).2
          = tr ++ pre.map (fun o => testcontainers.Event.customize o.name)
              ++ [testcontainers.Event.run rq])
    ∧ (∀ settings img rq, testcontainers.applyInOrder pre (azurite.baseRequest img) = some rq
        → (azurite.Run run settings img pre tr).2
          = tr ++ pre.map (fun o => testcontainers.Event.customize o.name)
              ++ [testcontainers.Event.run (azurite.applyServices rq settings)])
    ∧ (∀ rq, testcontainers.applyInOrder pre cassandra.baseRequest = some rq
        → (cassandra.RunContainer run pre tr).2
          = tr ++ pre.map (fun o => testcontainers.Event.customize o.name)
              ++ [testcontainers.Event.run rq]) := by
  refine ⟨?_, ?_, ?_, ?_, ?_, ?_, ?_, ?_, ?_⟩
  · intro img rq hq hqc
    simp only [qdrant.Run, customizeAll_first_error pre post c _ rq err tr hq hqc]
  · intro img rq hq hqc
    simp only [chroma.Run, customizeAll_first_error pre post c _ rq err tr hq hqc]
  · intro settings img rq hq hqc
    simp only [azurite.Run, customizeAll_first_error pre post c _ rq err tr hq hqc]
  · intro rq hq hqc
    simp only [cassandra.RunContainer, customizeAll_first_error pre post c _ rq err tr hq hqc]
  · intro keyPair register defaults img dyn rq hq hqc
    obtain ⟨r1, o1, h⟩ := applyOptions_first_error dyn pre post c _ rq defaults err tr hq hqc
    simp only [cockroachdb.Run, h]
  · intro img rq hq
    simp only [qdrant.Run, customizeAll_all_nil pre _ rq tr hq]
    cases (run rq).2 <;> rfl
  · intro img rq hq
    simp only [chroma.Run, customizeAll_all_nil pre _ rq tr hq]
    cases (run rq).2 <;> rfl
  · intro settings img rq hq
    simp only [azurite.Run, customizeAll_all_nil pre _ rq tr hq]
    cases (run (azurite.applyServices rq settings)).2 <;> rfl
  · intro rq hq
    simp only [cassandra.RunContainer, customizeAll_all_nil pre _ rq tr hq]
    rcases run rq with ⟨ctr, _ | e⟩ <;> rfl

/-! ## Theorems: the CockroachDB connection string -/

/-- A string with a non-empty left part is not empty. -/
theorem append_ne_empty_left (s t : String) (h : s ≠ "") : s ++ t ≠ "" := by
  intro he
  apply h
  have hd := congrArg String.data he
  rw [String.data_append] at hd
  exact String.ext (List.append_eq_nil.mp hd).1

/-- A string with a non-empty right part is not empty. -/
theorem append_ne_empty_right (s t : String) (h : t ≠ "") : s ++ t ≠ "" := by
  intro he
  apply h
  have hd := congrArg String.data he
  rw [String.data_append] at hd
  exact String.ext (List.append_eq_nil.mp hd).2

/-- The joined host and port is never empty: it holds a colon. -/
theorem joinHostPort_ne_empty (host port : String) : net.JoinHostPort host port ≠ "" := by
  unfold net.JoinHostPort
  split
  · exact append_ne_empty_left _ _ (append_ne_empty_right _ _ (by decide))
  · exact append_ne_empty_left _ _ (append_ne_empty_right _ _ (by decide))

/-- Bytes outside ASCII are escaped in every mode. -/
theorem shouldEscape_high (b : Nat) (mode : url.encoding) (h : 128 ≤ b) :
    url.shouldEscape b mode = true := by
  have hone : ∀ cs : List Char, (∀ d ∈ cs, d.toNat < 128) → url.oneOf b cs = false := by
    intro cs hcs
    simp only [url.oneOf, List.any_eq_false, beq_iff_eq]
    intro d hd heq
    have := hcs d hd
    omega
  unfold url.shouldEscape
  rw [hone _ (by decide), hone _ (by decide), hone _ (by decide), hone _ (by decide)]
  have h1 : ¬ (('a'.toNat ≤ b ∧ b ≤ 'z'.toNat) ∨ ('A'.toNat ≤ b ∧ b ≤ 'Z'.toNat)
      ∨ ('0'.toNat ≤ b ∧ b ≤ '9'.toNat)) := by
    have e1 : 'z'.toNat = 122 := by decide
    have e2 : 'Z'.toNat = 90 := by decide
    have e3 : '9'.toNat = 57 := by decide
    omega
  have h2 : ¬ b = 39 := by omega
  have h3 : ¬ b = 34 := by omega
  rw [if_neg h1]
  simp [h2, h3]

/-- The UTF-8 encoding of a code point is never empty, and its first byte is
the code point itself for ASCII and at least 128 otherwise. -/
theorem utf8Bytes_head (n : Nat) :
    ∃ b bs, url.utf8Bytes n = b :: bs ∧ ((n < 128 ∧ b = n) ∨ 128 ≤ b) := by
  unfold url.utf8Bytes
  split
  · exact ⟨n, [], rfl, Or.inl ⟨by omega, rfl⟩⟩
  · split
    · exact ⟨_, _, rfl, Or.inr (by omega)⟩
    · split
      · exact ⟨_, _, rfl, Or.inr (by omega)⟩
      · exact ⟨_, _, rfl, Or.inr (by omega)⟩

/-- In path mode the escaped form of a non-empty string that does not begin
with a slash is non-empty and does not begin with a slash either. -/
theorem escape_path_head (c : Char) (rest : List Char) (hc : c ≠ '/') :
    ∃ d ds, (url.escape (String.mk (c :: rest)) url.encoding.encodePath).data = d :: ds
      ∧ d ≠ '/' := by
  obtain ⟨b, bs, hb, hcase⟩ := utf8Bytes_head c.toNat
  have hdata : (url.escape (String.mk (c :: rest)) url.encoding.encodePath).data
      = url.escapeByte b url.encoding.encodePath
        ++ (bs.flatMap (fun b => url.escapeByte b url.encoding.encodePath)
          ++ rest.flatMap (fun ch => (url.utf8Bytes ch.toNat).flatMap
              (fun b => url.escapeByte b url.encoding.encodePath))) := by
    simp [url.escape, String.toList, hb, List.flatMap_cons, List.append_assoc]
  rw [hdata]
  unfold url.escapeByte
  rw [if_neg (by simp)]
  split
  · exact ⟨'%', _, rfl, by decide⟩
  · rename_i hne
    rcases hcase with ⟨_, rfl⟩ | hhigh
    · rw [Char.ofNat_toNat]
      exact ⟨c, _, rfl, hc⟩
    · exact absurd (shouldEscape_high b _ hhigh) hne

/-- The hexadecimal digits are not colons. -/
theorem upperhex_ne_colon (k : Nat) : url.upperhex k ≠ ':' := by
  by_cases hk : k < 16
  · have : ∀ j, j < 16 → url.upperhex j ≠ ':' := by decide
    exact this k hk
  · have hlen : "0123456789ABCDEF".toList.length ≤ k := by
      have : "0123456789ABCDEF".toList.length = 16 := by decide
      omega
    unfold url.upperhex
    rw [List.getD_eq_default _ _ hlen]
    decide

/-- In userinfo mode no byte is written as a colon. -/
theorem escapeByte_userinfo_no_colon (b : Nat) :
    ':' ∉ url.escapeByte b url.encoding.encodeUserPassword := by
  unfold url.escapeByte
  rw [if_neg (by simp)]
  split
  · intro hmem
    simp only [List.mem_cons, List.mem_singleton, List.not_mem_nil, or_false] at hmem
    rcases hmem with h | h | h
    · exact absurd h (by decide)
    · exact upperhex_ne_colon _ h.symm
    · exact upperhex_ne_colon _ h.symm
  · rename_i hne
    have hlow : b < 128 := by
      by_contra hge
      exact hne (shouldEscape_high b _ (by omega))
    have hall : ∀ j, j < 128 → url.shouldEscape j url.encoding.encodeUserPassword = false
        → Char.ofNat j ≠ ':' := by decide
    intro hmem
    simp only [List.mem_singleton] at hmem
    exact hall b hlow (by simpa using hne) hmem.symm

/-- An escaped user name or password holds no colon. -/
theorem escape_userinfo_no_colon (s : String) :
    ':' ∉ (url.escape s url.encoding.encodeUserPassword).toList := by
  simp only [url.escape, String.toList, List.mem_flatMap, not_exists, not_and]
  intro ch _ b _
  exact escapeByte_userinfo_no_colon b

/-- The escaped path of a non-empty database name that does not begin with a
slash is non-empty and does not begin with a slash. -/
theorem escapedPath_head (u : url.URL) (hdb : u.Path ≠ "")
    (hslash : u.Path.toList.head? ≠ some '/') :
    u.EscapedPath ≠ "" ∧ u.EscapedPath.toList.head? ≠ some '/' := by
  unfold url.URL.EscapedPath
  split
  · decide
  · rcases hp : u.Path with ⟨cs⟩
    rw [hp] at hdb hslash
    cases cs with
    | nil => exact absurd rfl hdb
    | cons c rest =>
      have hc : c ≠ '/' := by
        intro h
        apply hslash
        rw [h]
        rfl
      obtain ⟨d, ds, hd, hne⟩ := escape_path_head c rest hc
      constructor
      · intro he
        rw [he] at hd
        exact absurd hd (by simp)
      · simp only [String.toList]
        rw [hd]
        simpa using hne

/-- The encoded query of connString. -/
theorem sslmode_query (tls : Bool) :
    url.Values.Encode [("sslmode", [if tls then "verify-full" else "disable"])]
      = "sslmode=" ++ (if tls then "verify-full" else "disable") := by
  cases tls <;> decide

/-- The text `String` gives for a URL with a scheme, userinfo, a host and a
query. -/
theorem url_string_full (scheme : String) (ui : url.Userinfo) (hostS path query : String)
    (hs : scheme ≠ "") (hh : hostS ≠ "") (hq : query ≠ "") :
    (url.URL.mk scheme (some ui) hostS path query).String
      = scheme ++ ":" ++ "//" ++ ui.String ++ "@" ++ url.escape hostS url.encoding.encodeHost
        ++ (if (url.URL.mk scheme (some ui) hostS path query).EscapedPath ≠ ""
              ∧ (url.URL.mk scheme (some ui) hostS path query).EscapedPath.toList.head? ≠ some '/'
            then "/" else "")
        ++ (url.URL.mk scheme (some ui) hostS path query).EscapedPath ++ "?" ++ query := by
  have hbuf : ∀ t : String,
      scheme ++ ":" ++ "//" ++ ui.String ++ "@" ++ url.escape hostS url.encoding.encodeHost ++ t
        ≠ "" := by
    intro t
    repeat apply append_ne_empty_left
    exact hs
  have hbuf0 : scheme ++ ":" ++ "//" ++ ui.String ++ "@"
      ++ url.escape hostS url.encoding.encodeHost ≠ "" := by
    repeat apply append_ne_empty_left
    exact hs
  simp only [url.URL.String, ne_eq, hs, hh, hq, not_false_eq_true, true_or, or_true,
    Option.isSome_some, if_true, and_true]
  by_cases hc : ¬(url.URL.mk scheme (some ui) hostS path query).EscapedPath = ""
      ∧ ¬(url.URL.mk scheme (some ui) hostS path query).EscapedPath.toList.head? = some '/'
  · simp only [if_pos hc]
    rw [if_neg (fun h => hbuf "/" h.1)]
  · simp only [if_neg hc]
    rw [if_neg (fun h => hbuf0 h.1), String.append_empty]

/-- In path mode a string that begins with a slash still begins with a slash
after escaping. -/
theorem escape_path_slash (rest : List Char) :
    ∃ ds, (url.escape (String.mk ('/' :: rest)) url.encoding.encodePath).data = '/' :: ds := by
  refine ⟨rest.flatMap (fun ch => (url.utf8Bytes ch.toNat).flatMap
      (fun b => url.escapeByte b url.encoding.encodePath)), ?_⟩
  have h1 : (url.utf8Bytes '/'.toNat).flatMap
      (fun b => url.escapeByte b url.encoding.encodePath) = ['/'] := by decide
  simp only [url.escape, String.toList, List.flatMap_cons, h1]
  rfl

/-- The escaped path is non-empty and does not begin with a slash exactly when
the path itself is non-empty and does not begin with a slash. -/
theorem escapedPath_separator (u : url.URL) :
    (u.EscapedPath ≠ "" ∧ u.EscapedPath.toList.head? ≠ some '/')
      ↔ (u.Path ≠ "" ∧ u.Path.toList.head? ≠ some '/') := by
  constructor
  · intro h
    constructor
    · intro hp
      apply h.1
      unfold url.URL.EscapedPath
      rw [hp]
      decide
    · intro hp
      apply h.2
      rcases hpath : u.Path with ⟨cs⟩
      rw [hpath] at hp
      cases cs with
      | nil => simp [String.toList] at hp
      | cons c rest =>
        have hc : c = '/' := by simpa [String.toList] using hp
        subst hc
        obtain ⟨ds, hds⟩ := escape_path_slash rest
        have hne : (String.mk ('/' :: rest)) ≠ "*" := by
          intro he
          have := congrArg String.data he
          simp at this
        unfold url.URL.EscapedPath
        rw [hpath, if_neg hne]
        simp only [String.toList]
        rw [hds]
        rfl
  · intro h
    exact escapedPath_head u h.1 h.2

/-- C7, amended. For every options value, host and mapped port, the connection
string is `postgres://` userinfo `@` host-and-port, then a slash unless the
database name is empty or begins with a slash itself, then the database name,
then `?sslmode=` m. User, password and database are percent-encoded (the
database name `*` is kept as it is); host and the number part of the mapped
port are joined by `net.JoinHostPort` (a host with a colon is bracketed) and
the result is escaped as a host; m is `verify-full` when TLS is configured and
`disable` otherwise; the userinfo is `user:password` when the password is
non-empty and the user alone otherwise, so that it holds a colon if and only
if the password is non-empty. With an empty database name nothing stands
between the port and the question mark. `ConnectionString` returns that string
when host and mapped port are available. -/
theorem connString_shape (opts : cockroachdb.options) (host : String) (port : nat.Port)
    (d : Option testcontainers.DockerContainer) :
    cockroachdb.connString opts host port
      = "postgres://"
        ++ (url.escape opts.User url.encoding.encodeUserPassword
            ++ (if opts.Password ≠ "" then
                  ":" ++ url.escape opts.Password url.encoding.encodeUserPassword
                else ""))
        ++ "@" ++ url.escape (net.JoinHostPort host port.Port) url.encoding.encodeHost
        ++ (if opts.Database ≠ "" ∧ opts.Database.toList.head? ≠ some '/' then "/" else "")
        ++ (if opts.Database = "*" then "*"
            else url.escape opts.Database url.encoding.encodePath)
        ++ "?sslmode=" ++ (if opts.TLS.isSome then "verify-full" else "disable")
    ∧ ((':' ∈ (url.escape opts.User url.encoding.encodeUserPassword
            ++ (if opts.Password ≠ "" then
                  ":" ++ url.escape opts.Password url.encoding.encodeUserPassword
                else "")).toList) ↔ opts.Password ≠ "")
    ∧ (opts.Database = ""
        → cockroachdb.connString opts host port
          = "postgres://"
            ++ (url.escape opts.User url.encoding.encodeUserPassword
                ++ (if opts.Password ≠ "" then
                      ":" ++ url.escape opts.Password url.encoding.encodeUserPassword
                    else ""))
            ++ "@" ++ url.escape (net.JoinHostPort host port.Port) url.encoding.encodeHost
            ++ "?sslmode=" ++ (if opts.TLS.isSome then "verify-full" else "disable"))
    ∧ cockroachdb.Container.ConnectionString ⟨d, opts⟩ (fun _ => Except.ok port) (Except.ok host)
        = Except.ok (cockroachdb.connString opts host port) := by
  have hmain : cockroachdb.connString opts host port
      = "postgres://"
        ++ (url.escape opts.User url.encoding.encodeUserPassword
            ++ (if opts.Password ≠ "" then
                  ":" ++ url.escape opts.Password url.encoding.encodeUserPassword
                else ""))
        ++ "@" ++ url.escape (net.JoinHostPort host port.Port) url.encoding.encodeHost
        ++ (if opts.Database ≠ "" ∧ opts.Database.toList.head? ≠ some '/' then "/" else "")
        ++ (if opts.Database = "*" then "*"
            else url.escape opts.Database url.encoding.encodePath)
        ++ "?sslmode=" ++ (if opts.TLS.isSome then "verify-full" else "disable") := by
    have hhost := joinHostPort_ne_empty host port.Port
    have hq := sslmode_query opts.TLS.isSome
    unfold cockroachdb.connString
    have hquery : url.Values.Encode
        [("sslmode", [if opts.TLS.isSome then "verify-full" else "disable"])] ≠ "" := by
      rw [hq]
      exact append_ne_empty_left _ _ (by decide)
    simp only []
    rw [url_string_full _ _ _ _ _ (by decide) hhost hquery, hq]
    have hui : (if opts.Password ≠ "" then url.UserPassword opts.User opts.Password
          else url.User opts.User).String
        = url.escape opts.User url.encoding.encodeUserPassword
          ++ (if opts.Password ≠ "" then
                ":" ++ url.escape opts.Password url.encoding.encodeUserPassword
              else "") := by
      by_cases h : opts.Password = ""
      · simp [h, url.Userinfo.String, url.User]
      · simp [h, url.Userinfo.String, url.UserPassword, String.append_assoc]
    have e1 : "postgres://" = "postgres" ++ ":" ++ "//" := by decide
    have e2 : "?sslmode=" = "?" ++ "sslmode=" := by decide
    rw [hui, e1, e2]
    simp only [escapedPath_separator]
    simp only [url.URL.EscapedPath, String.append_assoc]
  refine ⟨hmain, ?_, ?_, rfl⟩
  · by_cases h : opts.Password = ""
    · have := escape_userinfo_no_colon opts.User
      simp only [String.toList] at this
      simp [h, String.toList, this]
    · simp [h, String.toList]
  · intro hdb
    rw [hmain, hdb]
    have he : url.escape "" url.encoding.encodePath = "" := by decide
    have hne : ¬ ("" : String) = "*" := by decide
    simp only [ne_eq, not_true_eq_false, false_and, if_false, if_neg hne, he,
      String.append_empty]

/-- C7, as stated, fails for an empty database name: the connection string then
has no slash between the port and the query, whereas the form of the claim
puts one there. -/
theorem connString_empty_database_no_slash :
    cockroachdb.connString (cockroachdb.optionsFor "") "localhost" "26257/tcp"
        = "postgres://root@localhost:26257?sslmode=disable"
    ∧ cockroachdb.connString (cockroachdb.optionsFor "") "localhost" "26257/tcp"
        ≠ "postgres://root@localhost:26257/?sslmode=disable" := by
  decide

/-- C7 at a concrete input: the default options, host `localhost`, mapped port
`26257/tcp`. -/
theorem connString_shape_witness :
    cockroachdb.connString (cockroachdb.optionsFor "defaultdb") "localhost" "26257/tcp"
      = "postgres://root@localhost:26257/defaultdb?sslmode=disable" := by
  have h := (connString_shape (cockroachdb.optionsFor "defaultdb") "localhost" "26257/tcp"
    none).1
  rw [h]
  decide

/-- C3 at concrete inputs: three customizers of which the second returns an
error, for the modules whose request the customizers do not look at, and for
Cassandra alone a customizer that fails because the request literal of that
module sets an environment. Each call returns the nil handle and that error
after calling the customizers up to the failing one only. -/
theorem customizer_error_aborts_launch_witness :
    qdrant.Run (fun _ => (none, none)) "example/image:1"
        [testcontainers.nilCustomizer 0,
         testcontainers.failingCustomizer 1 (testcontainers.Error.msg "bad option"),
         testcontainers.nilCustomizer 2] []
      = ((none, some (testcontainers.Error.msg "bad option")),
          [testcontainers.Event.customize 0, testcontainers.Event.customize 1])
    ∧ cockroachdb.Run (fun _ => (none, none)) (fun _ => none) (fun s => s)
        (cockroachdb.optionsFor "defaultdb") "example/image:1"
        [(testcontainers.nilCustomizer 0, none),
         (testcontainers.failingCustomizer 1 (testcontainers.Error.msg "bad option"), none),
         (testcontainers.nilCustomizer 2, none)] []
      = ((none, some (testcontainers.Error.msg "bad option")),
          [testcontainers.Event.customize 0, testcontainers.Event.customize 1])
    ∧ cassandra.RunContainer (fun _ => (none, none))
        [⟨0, fun req => (req, if req.Env.isSome then
            some (testcontainers.Error.msg "environment is set") else none)⟩,
         testcontainers.nilCustomizer 1] []
      = ((none, some (testcontainers.Error.msg "environment is set")),
          [testcontainers.Event.customize 0]) := by
  have h := customizer_error_aborts_launch (fun _ => (none, none))
    [testcontainers.nilCustomizer 0] [testcontainers.nilCustomizer 2]
    (testcontainers.failingCustomizer 1 (testcontainers.Error.msg "bad option"))
    (testcontainers.Error.msg "bad option") []
  have hc := customizer_error_aborts_launch (fun _ => (none, none))
    [] [testcontainers.nilCustomizer 1]
    ⟨0, fun req => (req, if req.Env.isSome then
        some (testcontainers.Error.msg "environment is set") else none)⟩
    (testcontainers.Error.msg "environment is set") []
  exact ⟨h.1 "example/image:1" _ rfl rfl,
    h.2.2.2.2.1 (fun _ => none) (fun s => s) (cockroachdb.optionsFor "defaultdb")
      "example/image:1" (fun _ => none) _ rfl rfl,
    hc.2.2.2.1 _ rfl rfl⟩
